import Mathlib

/-!
Verification development for the stellar poker table system.

The development shallowly embeds, from the Rust sources:
* the on-chain poker-table contract (`src/contracts/poker-table/src/{types,betting,game,pot,timeout,lib}.rs`)
  in namespace `PokerTable`, with the card evaluator it calls
  (`src/stellar-zk-cards/src/lib.rs`) in namespace `ZkCards`;
* the coordinator's hand evaluator (`src/services/coordinator/src/hand_eval.rs`)
  in namespace `HandEval`;
* the worker node's MPC session logic (`src/services/node/src/{session,api}.rs`)
  in namespace `NodeSvc`;
* the coordinator's reveal endpoint (`src/services/coordinator/src/api/mod.rs`)
  in namespace `Coord`.

Soroban environment collaborators (storage, token transfers, auth, the ZK
verifier, the game hub and the ledger clock) are external per the spec; they
are abstracted as explicit parameters: `cl` is the current ledger sequence
number, `vOk` the verifier's verdict.  Machine integers: Soroban `i128`
amounts become `Int` (no overflow at the modelled scales), `u32` counters
become `Nat`; Rust `i128` division truncates toward zero, which is `Int.tdiv`.
A contract entry point persists its table only on `Ok`, so each entry point
is a function `TableState → Except Err TableState` whose `.error` leaves the
chain state unchanged.
-/

namespace ZkCards

/-- Insert a value into a descending-sorted list; this is what the
`while j > 0 && arr[j] > arr[j-1]` swap loop of `sort_desc` in
`stellar-zk-cards/src/lib.rs` does to element `arr[i]` against the sorted
prefix: it moves left past strictly smaller entries and stops at the first
entry `≥` it. -/
def insert_desc (x : Nat) : List Nat → List Nat
  | [] => [x]
  | y :: ys => if x > y then x :: y :: ys else y :: insert_desc x ys

/-- `sort_desc` from `stellar-zk-cards/src/lib.rs` (insertion sort, 5 ranks,
descending). -/
def sort_desc (l : List Nat) : List Nat :=
  l.foldl (fun acc x => insert_desc x acc) []

/-- `HandRank::new` from `stellar-zk-cards/src/lib.rs`:
`(category << 28) | (tiebreaker & 0x0FFF_FFFF)`. -/
def rank_new (category tiebreaker : Nat) : Nat :=
  (category <<< 28) ||| (tiebreaker &&& 0x0FFFFFFF)

/-- State of the group-counting loop in `evaluate_five`:
(quads, quad_rank, trips, trip_rank, pairs, pair_ranks[0], pair_ranks[1]). -/
structure Groups where
  quads : Nat
  quad_rank : Nat
  trips : Nat
  trip_rank : Nat
  pairs : Nat
  pr0 : Nat
  pr1 : Nat
deriving Repr, DecidableEq

/-- The `for r in (0..NUM_RANKS).rev()` group-counting loop of
`evaluate_five` in `stellar-zk-cards/src/lib.rs`, with
`freq r = how often rank r occurs among the five ranks`. -/
def scan_groups (freq : Nat → Nat) : Groups :=
  (List.range 13).foldl
    (fun g rinv =>
      let r := 12 - rinv
      if freq r = 4 then { g with quads := g.quads + 1, quad_rank := r }
      else if freq r = 3 then { g with trips := g.trips + 1, trip_rank := r }
      else if freq r = 2 then
        if g.pairs < 2 then
          if g.pairs = 0 then { g with pairs := g.pairs + 1, pr0 := r }
          else { g with pairs := g.pairs + 1, pr1 := r }
        else { g with pairs := g.pairs + 1 }
      else g)
    ⟨0, 0, 0, 0, 0, 0, 0⟩

/-- `evaluate_five` from `stellar-zk-cards/src/lib.rs` on the five card
values, returning the packed `HandRank.score`. -/
def evaluate_five (c0 c1 c2 c3 c4 : Nat) : Nat :=
  let rs := sort_desc [c0 % 13, c1 % 13, c2 % 13, c3 % 13, c4 % 13]
  let r0 := rs.getD 0 0
  let r1 := rs.getD 1 0
  let r2 := rs.getD 2 0
  let r3 := rs.getD 3 0
  let r4 := rs.getD 4 0
  let is_flush : Bool :=
    c0 / 13 = c1 / 13 ∧ c1 / 13 = c2 / 13 ∧ c2 / 13 = c3 / 13 ∧ c3 / 13 = c4 / 13
  let is_straight : Bool :=
    r0 = r1 + 1 ∧ r1 = r2 + 1 ∧ r2 = r3 + 1 ∧ r3 = r4 + 1
  let is_wheel : Bool := r0 = 12 ∧ r1 = 3 ∧ r2 = 2 ∧ r3 = 1 ∧ r4 = 0
  let freq : Nat → Nat := fun r => [r0, r1, r2, r3, r4].count r
  let g := scan_groups freq
  let tb := (r0 <<< 16) ||| (r1 <<< 12) ||| (r2 <<< 8) ||| (r3 <<< 4) ||| r4
  if is_flush ∧ is_straight then
    if r0 = 12 ∧ r1 = 11 then rank_new 9 r0
    else rank_new 8 (if is_wheel then 3 else r0)
  else if is_flush ∧ is_wheel then rank_new 8 3
  else if g.quads = 1 then
    let kicker := ((rs.find? (fun r => r ≠ g.quad_rank)).getD 0)
    rank_new 7 ((g.quad_rank <<< 4) ||| kicker)
  else if g.trips = 1 ∧ g.pairs ≥ 1 then rank_new 6 ((g.trip_rank <<< 4) ||| g.pr0)
  else if is_flush then rank_new 5 tb
  else if is_straight ∨ is_wheel then rank_new 4 (if is_wheel then 3 else r0)
  else if g.trips = 1 then
    let ks := (rs.filter (fun r => r ≠ g.trip_rank)).take 2
    rank_new 3 ((g.trip_rank <<< 8) ||| (ks.getD 0 0 <<< 4) ||| ks.getD 1 0)
  else if g.pairs = 2 then
    let hi := if g.pr0 > g.pr1 then g.pr0 else g.pr1
    let lo := if g.pr0 > g.pr1 then g.pr1 else g.pr0
    let kicker := (rs.find? (fun r => r ≠ hi ∧ r ≠ lo)).getD 0
    rank_new 2 ((hi <<< 8) ||| (lo <<< 4) ||| kicker)
  else if g.pairs = 1 then
    let ks := (rs.filter (fun r => r ≠ g.pr0)).take 3
    rank_new 1 ((g.pr0 <<< 12) ||| (ks.getD 0 0 <<< 8) ||| (ks.getD 1 0 <<< 4) ||| ks.getD 2 0)
  else rank_new 0 tb

/-- Apply `evaluate_five` to a 5-element list (the shape `pick5` produces). -/
def evaluate_five_list (hand : List Nat) : Nat :=
  match hand with
  | [c0, c1, c2, c3, c4] => evaluate_five c0 c1 c2 c3 c4
  | _ => 0

/-- The 5 cards kept when positions `i` and `j` are skipped, as built by the
inner loop of `evaluate_hand` in `stellar-zk-cards/src/lib.rs`. -/
def pick5 (cards : List Nat) (i j : Nat) : List Nat :=
  ((List.range 7).filter (fun k => k ≠ i ∧ k ≠ j)).map (fun k => cards.getD k 0)

/-- `evaluate_hand` from `stellar-zk-cards/src/lib.rs`: best score over all
C(7,5)=21 five-card subsets; returns the packed `HandRank.score`. -/
def evaluate_hand (cards : List Nat) : Nat :=
  (List.range 7).foldl
    (fun best i =>
      (List.range' (i + 1) (7 - (i + 1))).foldl
        (fun b j =>
          let s := evaluate_five_list (pick5 cards i j)
          if s > b then s else b)
        best)
    0

end ZkCards

namespace PokerTable

/-- `GamePhase` from `poker-table/src/types.rs`. -/
inductive GamePhase
  | Waiting
  | Dealing
  | Preflop
  | DealingFlop
  | Flop
  | DealingTurn
  | Turn
  | DealingRiver
  | River
  | Showdown
  | Settlement
  | Dispute
deriving Repr, DecidableEq

/-- `Action` from `poker-table/src/types.rs` (`i128` amounts become `Int`). -/
inductive Action
  | Fold
  | Check
  | Call
  | Bet (amount : Int)
  | Raise (amount : Int)
  | AllIn
deriving Repr, DecidableEq

/-- `PokerTableError` from `poker-table/src/types.rs` (the variants the
embedded functions can produce). -/
inductive Err
  | TableNotAcceptingPlayers
  | TableFull
  | InvalidBuyIn
  | AlreadySeated
  | PlayerNotAtTable
  | CannotLeaveDuringActiveHand
  | HandAlreadyInProgress
  | NeedAtLeastTwoPlayers
  | InvalidPlayerIndex
  | NotYourTurn
  | PlayerAlreadyFolded
  | PlayerAlreadyAllIn
  | MustCallOrFold
  | NothingToCall
  | CannotBetWhenOutstandingBet
  | BetTooSmall
  | RaiseTooSmall
  | NotEnoughChips
  | NotInBettingPhase
  | NotInDealingPhase
  | NotInRevealPhase
  | NotInShowdownPhase
  | WrongCommitmentCount
  | WrongCardCount
  | NotAuthorizedCommittee
  | DealProofVerificationFailed
  | RevealProofVerificationFailed
  | ShowdownProofVerificationFailed
  | BoardNotComplete
  | InvalidHoleCards
  | TimeoutNotReached
  | TimeoutNotApplicable
deriving Repr, DecidableEq

/-- `TableConfig` from `poker-table/src/types.rs`; addresses (token,
committee, verifier, game hub) are external collaborators and not part of the
modelled state. -/
structure TableConfig where
  min_buy_in : Int
  max_buy_in : Int
  small_blind : Int
  big_blind : Int
  max_players : Nat
  timeout_ledgers : Nat
deriving Repr, DecidableEq

/-- `PlayerState` from `poker-table/src/types.rs`; addresses become `Nat`
tokens. -/
structure PlayerState where
  address : Nat
  stack : Int
  bet_this_round : Int
  folded : Bool
  all_in : Bool
  sitting_out : Bool
  seat_index : Nat
deriving Repr, DecidableEq

/-- `SidePot` from `poker-table/src/types.rs`. -/
structure SidePot where
  amount : Int
  eligible_players : List Nat
deriving Repr, DecidableEq

/-- `TableState` from `poker-table/src/types.rs`.  `deck_root` and the
per-card commitments are opaque on-chain byte strings; they are modelled as
`Nat` tokens since the contract only stores and compares them. -/
structure TableState where
  id : Nat
  admin : Nat
  config : TableConfig
  phase : GamePhase
  players : List PlayerState
  dealer_seat : Nat
  current_turn : Nat
  pot : Int
  side_pots : List SidePot
  deck_root : Nat
  hand_commitments : List Nat
  board_cards : List Nat
  dealt_indices : List Nat
  hand_number : Nat
  last_action_ledger : Nat
  committee : Nat
  session_id : Nat
deriving Repr, DecidableEq

/-- Rust's `Option::ok_or` into `Result`, as used all over the contract. -/
def okOr (o : Option α) (e : Err) : Except Err α :=
  match o with
  | some a => .ok a
  | none => .error e

/-- `find_player_seat` from `poker-table/src/betting.rs`: the first seated
player with the given address, returning its `seat_index` field. -/
def find_player_seat (t : TableState) (player : Nat) : Except Err Nat :=
  match t.players.find? (fun p => p.address = player) with
  | some p => .ok p.seat_index
  | none => .error .PlayerNotAtTable

/-- `max_bet_this_round` from `poker-table/src/betting.rs`. -/
def max_bet_this_round (t : TableState) : Int :=
  t.players.foldl (fun m p => if p.bet_this_round > m then p.bet_this_round else m) 0

/-- `active_player_count` from `poker-table/src/game.rs` (players not
folded). -/
def active_player_count (t : TableState) : Nat :=
  (t.players.filter (fun p => !p.folded)).length

/-- `last_player_standing` from `poker-table/src/game.rs`. -/
def last_player_standing (t : TableState) : Option Nat :=
  if active_player_count t ≠ 1 then none
  else (t.players.find? (fun p => !p.folded)).map (·.seat_index)

/-- `is_round_complete` from `poker-table/src/betting.rs`: the loop returns
`false` at the first non-folded, non-all-in player whose bet differs from the
maximum, i.e. it is `true` iff every such player has matched it.  (Its
`InvalidPlayerIndex` arm is dead: the loop indexes `0..len`.) -/
def is_round_complete (t : TableState) : Bool :=
  t.players.all (fun p => p.folded || p.all_in || p.bet_this_round = max_bet_this_round t)

/-- The seat scan shared by `advance_turn` in `poker-table/src/betting.rs`
and the betting branch of `process_timeout` in `poker-table/src/timeout.rs`:
starting at `start`, step cyclically up to `fuel` times and stop at the first
non-folded, non-all-in seat; if none is found in `fuel` steps the cursor has
wrapped back (`(start + fuel) % len`), exactly as the Rust `for` loop leaves
`next`.  (The `None` arm is dead: the cursor always stays below `len`.) -/
def next_active_from (players : List PlayerState) : Nat → Nat → Nat
  | 0, start => start
  | fuel + 1, start =>
    match players[start]? with
    | some p => if p.folded || p.all_in then
        next_active_from players fuel ((start + 1) % players.length)
      else start
    | none => start

end PokerTable

namespace PokerTable

/-- `post_blind` from `poker-table/src/game.rs`: posting caps at the stack
and forces all-in when short; `bet_this_round` is assigned (not added). -/
def post_blind (t : TableState) (seat : Nat) (amount : Int) : Except Err TableState := do
  let player ← okOr t.players[seat]? .InvalidPlayerIndex
  let player := if player.stack < amount then { player with all_in := true } else player
  let actual := if player.stack < amount then player.stack else amount
  let player := { player with
    stack := player.stack - actual
    bet_this_round := actual }
  .ok { t with pot := t.pot + actual, players := t.players.set seat player }

/-- `start_new_hand` from `poker-table/src/game.rs`. -/
def start_new_hand (cl : Nat) (t : TableState) : Except Err TableState := do
  let t := { t with hand_number := t.hand_number + 1 }
  let num_players := t.players.length
  if num_players < 2 then .error .NeedAtLeastTwoPlayers else
  let t := { t with dealer_seat := (t.dealer_seat + 1) % num_players }
  let t := { t with
    players := t.players.map (fun p =>
      { p with folded := false, all_in := false, bet_this_round := 0 }) }
  let sb_seat := (t.dealer_seat + 1) % num_players
  let bb_seat := (t.dealer_seat + 2) % num_players
  let t ← post_blind t sb_seat t.config.small_blind
  let t ← post_blind t bb_seat t.config.big_blind
  .ok { t with
    board_cards := []
    dealt_indices := []
    hand_commitments := []
    side_pots := []
    phase := .Dealing
    last_action_ledger := cl }

/-- `settle_fold_win` from `poker-table/src/game.rs` (the game-hub
notification and event are external effects). -/
def settle_fold_win (cl : Nat) (t : TableState) : Except Err TableState := do
  match last_player_standing t with
  | some winner_seat =>
    let winnings := t.pot
    let winner ← okOr t.players[winner_seat]? .InvalidPlayerIndex
    let winner := { winner with stack := winner.stack + winnings }
    .ok { t with
      players := t.players.set winner_seat winner
      pot := 0
      phase := .Settlement
      last_action_ledger := cl }
  | none => .ok t

/-- The scoring loop of `settle_showdown` in `poker-table/src/game.rs`:
walk the seats in order, skip folded ones, pair each active seat with the
next entry of `hole_cards`, and keep the seat of the strictly best
`ZkCards.evaluate_hand` score (initial best 0, initial winner seat 0). -/
def showdown_scan (board : List Nat) (hole_cards : List (Nat × Nat)) :
    List PlayerState → Nat → Nat → Nat → Except Err Nat
  | [], _, winner_seat, _ => .ok winner_seat
  | p :: ps, best_rank, winner_seat, active_idx =>
    if p.folded then showdown_scan board hole_cards ps best_rank winner_seat active_idx
    else do
      let cards ← okOr hole_cards[active_idx]? .InvalidHoleCards
      let score := ZkCards.evaluate_hand
        [cards.1, cards.2, board.getD 0 0, board.getD 1 0, board.getD 2 0,
          board.getD 3 0, board.getD 4 0]
      if score > best_rank then
        showdown_scan board hole_cards ps score p.seat_index (active_idx + 1)
      else
        showdown_scan board hole_cards ps best_rank winner_seat (active_idx + 1)

/-- `settle_showdown` from `poker-table/src/game.rs`. -/
def settle_showdown (cl : Nat) (t : TableState) (hole_cards : List (Nat × Nat)) :
    Except Err TableState := do
  if t.board_cards.length ≠ 5 then .error .BoardNotComplete else
  let b0 ← okOr t.board_cards[0]? .BoardNotComplete
  let b1 ← okOr t.board_cards[1]? .BoardNotComplete
  let b2 ← okOr t.board_cards[2]? .BoardNotComplete
  let b3 ← okOr t.board_cards[3]? .BoardNotComplete
  let b4 ← okOr t.board_cards[4]? .BoardNotComplete
  let winner_seat ← showdown_scan [b0, b1, b2, b3, b4] hole_cards t.players 0 0 0
  let winnings := t.pot
  let winner ← okOr t.players[winner_seat]? .InvalidPlayerIndex
  let winner := { winner with stack := winner.stack + winnings }
  .ok { t with
    players := t.players.set winner_seat winner
    pot := 0
    phase := .Settlement
    last_action_ledger := cl }

/-- `advance_to_next_phase` from `poker-table/src/betting.rs`. -/
def advance_to_next_phase (cl : Nat) (t : TableState) : Except Err TableState := do
  if active_player_count t = 1 then settle_fold_win cl t
  else
    match t.phase with
    | .Preflop => .ok { t with phase := .DealingFlop, last_action_ledger := cl }
    | .Flop => .ok { t with phase := .DealingTurn, last_action_ledger := cl }
    | .Turn => .ok { t with phase := .DealingRiver, last_action_ledger := cl }
    | .River => .ok { t with phase := .Showdown, last_action_ledger := cl }
    | _ => .ok t

/-- `advance_turn` from `poker-table/src/betting.rs`. -/
def advance_turn (cl : Nat) (t : TableState) : Except Err TableState := do
  let num_players := t.players.length
  if num_players = 0 then .error .NeedAtLeastTwoPlayers else
  let next := next_active_from t.players num_players ((t.current_turn + 1) % num_players)
  if is_round_complete t then advance_to_next_phase cl t
  else .ok { t with current_turn := next }

/-- `process_action` from `poker-table/src/betting.rs`. -/
def process_action (cl : Nat) (t : TableState) (player : Nat) (action : Action) :
    Except Err TableState := do
  let seat ← find_player_seat t player
  if seat ≠ t.current_turn then .error .NotYourTurn else
  let p ← okOr t.players[seat]? .InvalidPlayerIndex
  if p.folded then .error .PlayerAlreadyFolded else
  if p.all_in then .error .PlayerAlreadyAllIn else
  let current_bet := max_bet_this_round t
  let t ← (do
    match action with
    | .Fold =>
      let p := { p with folded := true }
      let t := { t with players := t.players.set seat p }
      if active_player_count t = 1 then
        let t ← settle_fold_win cl t
        return (t, true)
      else
        .ok (t, false)
    | .Check =>
      if p.bet_this_round ≠ current_bet then .error .MustCallOrFold
      else .ok (t, false)
    | .Call =>
      let to_call := current_bet - p.bet_this_round
      if to_call ≤ 0 then .error .NothingToCall else
      let actual := min to_call p.stack
      let p := { p with stack := p.stack - actual, bet_this_round := p.bet_this_round + actual }
      let p := if p.stack = 0 then { p with all_in := true } else p
      .ok ({ t with pot := t.pot + actual, players := t.players.set seat p }, false)
    | .Bet amount =>
      if current_bet ≠ 0 then .error .CannotBetWhenOutstandingBet else
      if amount < t.config.big_blind then .error .BetTooSmall else
      if amount > p.stack then .error .NotEnoughChips else
      let p := { p with stack := p.stack - amount, bet_this_round := p.bet_this_round + amount }
      let p := if p.stack = 0 then { p with all_in := true } else p
      .ok ({ t with pot := t.pot + amount, players := t.players.set seat p }, false)
    | .Raise amount =>
      let to_call := current_bet - p.bet_this_round
      let total_needed := to_call + amount
      if amount < t.config.big_blind then .error .RaiseTooSmall else
      if total_needed > p.stack then .error .NotEnoughChips else
      let p := { p with
        stack := p.stack - total_needed
        bet_this_round := p.bet_this_round + total_needed }
      let p := if p.stack = 0 then { p with all_in := true } else p
      .ok ({ t with pot := t.pot + total_needed, players := t.players.set seat p }, false)
    | .AllIn =>
      let amount := p.stack
      let p := { p with
        bet_this_round := p.bet_this_round + amount
        stack := 0
        all_in := true }
      .ok ({ t with pot := t.pot + amount, players := t.players.set seat p }, false))
  if t.2 then .ok t.1
  else
    let t := { t.1 with last_action_ledger := cl }
    advance_turn cl t

end PokerTable

namespace PokerTable

/-- `reset_round` from `poker-table/src/betting.rs`: zero every
`bet_this_round`, then give the turn to the first non-folded, non-all-in
seat after the dealer; if none exists in a full cycle, fall through to
`advance_to_next_phase`.  The search loop returns from inside the function
on success, hence the `Option`-valued scan. -/
def find_active_from (players : List PlayerState) : Nat → Nat → Option Nat
  | 0, _ => none
  | fuel + 1, seat =>
    match players[seat]? with
    | some p => if !p.folded && !p.all_in then some seat
      else find_active_from players fuel ((seat + 1) % players.length)
    | none => none

/-- `reset_round` from `poker-table/src/betting.rs`. -/
def reset_round (cl : Nat) (t : TableState) : Except Err TableState := do
  let t := { t with players := t.players.map (fun p => { p with bet_this_round := 0 }) }
  let num_players := t.players.length
  if num_players = 0 then .error .NeedAtLeastTwoPlayers else
  match find_active_from t.players num_players ((t.dealer_seat + 1) % num_players) with
  | some seat => .ok { t with current_turn := seat }
  | none => advance_to_next_phase cl t

/-- `emergency_refund` from `poker-table/src/timeout.rs`: give the remainder
of the even split to the first non-folded seat (in seat order). -/
def add_to_first_active (r : Int) : List PlayerState → List PlayerState
  | [] => []
  | p :: ps =>
    if !p.folded then { p with stack := p.stack + r } :: ps
    else p :: add_to_first_active r ps

/-- `emergency_refund` from `poker-table/src/timeout.rs`.  `share` uses Rust
`i128` division, i.e. truncation toward zero (`Int.tdiv`). -/
def emergency_refund (t : TableState) : Except Err TableState := do
  let active := active_player_count t
  if active = 0 then .ok t else
  let share := Int.tdiv t.pot (active : Int)
  let t' := { t with
    players := t.players.map (fun p : PlayerState =>
      if !p.folded then { p with stack := p.stack + share } else p) }
  let distributed := share * (active : Int)
  let remainder := t.pot - distributed
  let t' := if remainder > 0 then
      { t' with players := add_to_first_active remainder t'.players }
    else t'
  .ok { t' with pot := 0, phase := .Settlement }

/-- `process_timeout` from `poker-table/src/timeout.rs`.  `cl` is the current
ledger sequence; `cl - t.last_action_ledger` is `u32` subtraction, meaningful
(and modelled) for `t.last_action_ledger ≤ cl`. -/
def process_timeout (cl : Nat) (t : TableState) : Except Err TableState := do
  let elapsed := cl - t.last_action_ledger
  if elapsed < t.config.timeout_ledgers then .error .TimeoutNotReached else
  match t.phase with
  | .Preflop | .Flop | .Turn | .River =>
    let seat := t.current_turn
    let p ← okOr t.players[seat]? .InvalidPlayerIndex
    if !p.folded && !p.all_in then
      let p := { p with folded := true }
      let t := { t with players := t.players.set seat p }
      if active_player_count t = 1 then
        settle_fold_win cl t
      else
        let num_players := t.players.length
        let next := next_active_from t.players num_players ((seat + 1) % num_players)
        .ok { t with current_turn := next, last_action_ledger := cl }
    else .ok t
  | .Dealing | .DealingFlop | .DealingTurn | .DealingRiver | .Showdown =>
    let t := { t with phase := .Dispute, last_action_ledger := cl }
    emergency_refund t
  | _ => .error .TimeoutNotApplicable

/-- The sorted-unique insertion step of `calculate_side_pots` in
`poker-table/src/pot.rs`: scan for the first level `≥ b`; insert before it if
strictly greater, skip if equal, append if none. -/
def insert_level (b : Int) : List Int → List Int
  | [] => [b]
  | l :: ls =>
    if b ≤ l then (if b < l then b :: l :: ls else l :: ls)
    else l :: insert_level b ls

/-- The all-in bet levels collected by `calculate_side_pots` in
`poker-table/src/pot.rs` (ascending, distinct, positive bets of all-in
players). -/
def all_in_levels (t : TableState) : List Int :=
  t.players.foldl
    (fun acc p =>
      if p.all_in && p.bet_this_round > 0 then insert_level p.bet_this_round acc else acc)
    []

/-- One level pot of `calculate_side_pots` in `poker-table/src/pot.rs`:
every non-folded player contributes `min(bet, level) - min(bet, prev)`, and
is eligible iff `bet ≥ level`. -/
def level_pot_amount (players : List PlayerState) (prev level : Int) : Int :=
  players.foldl
    (fun a p =>
      if p.folded then a else a + (min p.bet_this_round level - min p.bet_this_round prev))
    0

/-- Seats eligible for the pot at `level`: non-folded with `bet ≥ level`. -/
def level_eligible (players : List PlayerState) (level : Int) : List Nat :=
  (players.filter (fun p => !p.folded && p.bet_this_round ≥ level)).map (·.seat_index)

/-- The per-level loop of `calculate_side_pots` (a pot is pushed only when
its amount is positive). -/
def level_pots (players : List PlayerState) : Int → List Int → List SidePot
  | _, [] => []
  | prev, level :: rest =>
    let amount := level_pot_amount players prev level
    (if amount > 0 then [⟨amount, level_eligible players level⟩] else [])
      ++ level_pots players level rest

/-- `calculate_side_pots` from `poker-table/src/pot.rs`. -/
def calculate_side_pots (t : TableState) : List SidePot :=
  let levels := all_in_levels t
  match levels with
  | [] =>
    [⟨t.pot, (t.players.filter (fun p => !p.folded)).map (·.seat_index)⟩]
  | _ =>
    let max_level := levels.getLastD 0
    let remaining := t.players.foldl
      (fun a p =>
        if p.folded then a
        else if p.bet_this_round > max_level then a + (p.bet_this_round - max_level) else a)
      0
    let excess_eligible :=
      (t.players.filter (fun p => !p.folded && p.bet_this_round > max_level)).map (·.seat_index)
    level_pots t.players 0 levels
      ++ (if remaining > 0 then [⟨remaining, excess_eligible⟩] else [])

end PokerTable

namespace PokerTable

/-- `derive_session_id` from `poker-table/src/lib.rs`: a deterministic 32-bit
hash of `(table_id, hand_number)`; `u32` wrapping arithmetic is modelled with
`% 2^32`. -/
def derive_session_id (table_id hand_number : Nat) : Nat :=
  let rot := (((hand_number <<< 16) % 2 ^ 32) ||| (hand_number >>> 16)) % 2 ^ 32
  let x := table_id ^^^ rot
  let x := (x * 0x9E3779B1) % 2 ^ 32
  let x := x ^^^ (x >>> 16)
  let x := (x * 0x85EBCA6B) % 2 ^ 32
  let x := x ^^^ (x >>> 13)
  x

/-- The fresh `TableState` built by `create_table` in
`poker-table/src/lib.rs` (`committee` is `config.committee`). -/
def initial_table (id admin : Nat) (config : TableConfig) (committee cl : Nat) : TableState :=
  { id := id
    admin := admin
    config := config
    phase := .Waiting
    players := []
    dealer_seat := 0
    current_turn := 0
    pot := 0
    side_pots := []
    deck_root := 0
    hand_commitments := []
    board_cards := []
    dealt_indices := []
    hand_number := 0
    last_action_ledger := cl
    committee := committee
    session_id := 0 }

/-- `join_table` from `poker-table/src/lib.rs` (the token transfer is an
external effect); returns the saved table and the allocated seat. -/
def join_table (t : TableState) (player : Nat) (buy_in : Int) :
    Except Err (TableState × Nat) := do
  if t.phase ≠ .Waiting then .error .TableNotAcceptingPlayers else
  if t.players.length ≥ t.config.max_players then .error .TableFull else
  if buy_in < t.config.min_buy_in ∨ buy_in > t.config.max_buy_in then .error .InvalidBuyIn else
  if t.players.any (fun p => p.address = player) then .error .AlreadySeated else
  let seat := t.players.length
  let t := { t with
    players := t.players ++ [{
      address := player
      stack := buy_in
      bet_this_round := 0
      folded := false
      all_in := false
      sitting_out := false
      seat_index := seat }] }
  .ok (t, seat)

/-- `leave_table` from `poker-table/src/lib.rs` (the refund transfer is an
external effect); returns the saved table and the withdrawn amount.  Note the
remaining players keep their old `seat_index` values. -/
def leave_table (t : TableState) (player : Nat) : Except Err (TableState × Int) := do
  if t.phase ≠ .Waiting ∧ t.phase ≠ .Settlement then .error .CannotLeaveDuringActiveHand else
  match t.players.find? (fun p => p.address = player) with
  | none => .error .PlayerNotAtTable
  | some p =>
    let t := { t with players := t.players.filter (fun q => q.address ≠ player) }
    .ok (t, p.stack)

/-- `start_hand` from `poker-table/src/lib.rs` (the game-hub notification is
an external effect). -/
def start_hand (cl : Nat) (t : TableState) : Except Err TableState := do
  if t.phase ≠ .Waiting ∧ t.phase ≠ .Settlement then .error .HandAlreadyInProgress else
  if t.players.length < 2 then .error .NeedAtLeastTwoPlayers else
  let t ← start_new_hand cl t
  let _p1 ← okOr t.players[0]? .InvalidPlayerIndex
  let _p2 ← okOr t.players[1]? .InvalidPlayerIndex
  .ok { t with session_id := derive_session_id t.id t.hand_number }

/-- `commit_deal` from `poker-table/src/lib.rs`.  `caller` is the
authenticated committee address and `vOk` the external verifier's verdict on
the deal proof. -/
def commit_deal (cl : Nat) (t : TableState) (caller : Nat) (deck_root : Nat)
    (hand_commitments : List Nat) (dealt_indices : List Nat) (vOk : Bool) :
    Except Err TableState := do
  if t.phase ≠ .Dealing then .error .NotInDealingPhase else
  if caller ≠ t.committee then .error .NotAuthorizedCommittee else
  if hand_commitments.length ≠ t.players.length then .error .WrongCommitmentCount else
  if !vOk then .error .DealProofVerificationFailed else
  let t := { t with
    deck_root := deck_root
    hand_commitments := hand_commitments
    dealt_indices := dealt_indices
    phase := .Preflop
    last_action_ledger := cl }
  let num_players := t.players.length
  if num_players < 2 then .error .NeedAtLeastTwoPlayers else
  .ok { t with current_turn := (t.dealer_seat + 3) % num_players }

/-- `player_action` from `poker-table/src/lib.rs`. -/
def player_action (cl : Nat) (t : TableState) (player : Nat) (action : Action) :
    Except Err TableState := do
  if t.phase ≠ .Preflop ∧ t.phase ≠ .Flop ∧ t.phase ≠ .Turn ∧ t.phase ≠ .River then
    .error .NotInBettingPhase
  else process_action cl t player action

/-- `reveal_board` from `poker-table/src/lib.rs`. -/
def reveal_board (cl : Nat) (t : TableState) (caller : Nat) (cards indices : List Nat)
    (vOk : Bool) : Except Err TableState := do
  if caller ≠ t.committee then .error .NotAuthorizedCommittee else
  let expected_cards ← (match t.phase with
    | .DealingFlop => .ok 3
    | .DealingTurn => .ok 1
    | .DealingRiver => .ok 1
    | _ => .error .NotInRevealPhase)
  if cards.length ≠ expected_cards ∨ indices.length ≠ expected_cards then
    .error .WrongCardCount else
  if !vOk then .error .RevealProofVerificationFailed else
  let t := { t with
    board_cards := t.board_cards ++ cards
    dealt_indices := t.dealt_indices ++ indices }
  let t ← (match t.phase with
    | .DealingFlop => .ok { t with phase := GamePhase.Flop }
    | .DealingTurn => .ok { t with phase := GamePhase.Turn }
    | .DealingRiver => .ok { t with phase := GamePhase.River }
    | _ => .error .NotInRevealPhase)
  let t := { t with last_action_ledger := cl }
  reset_round cl t

/-- `submit_showdown` from `poker-table/src/lib.rs`. -/
def submit_showdown (cl : Nat) (t : TableState) (caller : Nat)
    (hole_cards : List (Nat × Nat)) (vOk : Bool) : Except Err TableState := do
  if t.phase ≠ .Showdown then .error .NotInShowdownPhase else
  if caller ≠ t.committee then .error .NotAuthorizedCommittee else
  if !vOk then .error .ShowdownProofVerificationFailed else
  settle_showdown cl t hole_cards

/-- `claim_timeout` from `poker-table/src/lib.rs`. -/
def claim_timeout (cl : Nat) (t : TableState) : Except Err TableState :=
  process_timeout cl t

end PokerTable

namespace HandEval

/-- One compare-swap of the bubble sort in `score_five`
(`coordinator/src/hand_eval.rs`): `if ranks[j] < ranks[j+1] { swap }`,
sorting descending. -/
def csw (a b : Nat) : Nat × Nat := if a < b then (b, a) else (a, b)

/-- The full fixed-bound bubble sort of `score_five` on the five ranks:
pass `i` runs `j = 0 .. 3-i`, each step a `csw` of neighbours. -/
def sortRanks (a0 b0 c0 d0 e0 : Nat) : Nat × Nat × Nat × Nat × Nat :=
  let (a1, b1) := csw a0 b0
  let (b2, c1) := csw b1 c0
  let (c2, d1) := csw c1 d0
  let (d2, e1) := csw d1 e0
  let (a2, b3) := csw a1 b2
  let (b4, c3) := csw b3 c2
  let (c4, d3) := csw c3 d2
  let (a3, b5) := csw a2 b4
  let (b6, c5) := csw b5 c4
  let (a4, b7) := csw a3 b6
  (a4, b7, c5, d3, e1)

/-- State of the frequency-group loop in `score_five`
(`coordinator/src/hand_eval.rs`): `(has_four, four_rank, has_three,
three_rank, pair_count, pair_rank_hi, pair_rank_lo)`. -/
structure FreqGroups where
  has_four : Bool
  four_rank : Nat
  has_three : Bool
  three_rank : Nat
  pair_count : Nat
  pair_rank_hi : Nat
  pair_rank_lo : Nat
deriving Repr, DecidableEq

/-- The `for r_inv in 0..13 { let r = 12 - r_inv; ... }` loop of
`score_five` in `coordinator/src/hand_eval.rs`. -/
def freq_scan (freq : Nat → Nat) : FreqGroups :=
  (List.range 13).foldl
    (fun g r_inv =>
      let r := 12 - r_inv
      if freq r = 4 then { g with has_four := true, four_rank := r }
      else if freq r = 3 then { g with has_three := true, three_rank := r }
      else if freq r = 2 then
        if g.pair_count = 0 then { g with pair_rank_hi := r, pair_count := g.pair_count + 1 }
        else { g with pair_rank_lo := r, pair_count := g.pair_count + 1 }
      else g)
    ⟨false, 0, false, 0, 0, 0, 0⟩

/-- The straightness test of `score_five` on the sorted ranks. -/
def is_straight5 (r0 r1 r2 r3 r4 : Nat) : Bool :=
  r0 = r1 + 1 ∧ r1 = r2 + 1 ∧ r2 = r3 + 1 ∧ r3 = r4 + 1

/-- The ace-low wheel test of `score_five` on the sorted ranks. -/
def is_wheel5 (r0 r1 r2 r3 r4 : Nat) : Bool :=
  r0 = 12 ∧ r1 = 3 ∧ r2 = 2 ∧ r3 = 1 ∧ r4 = 0

/-- The rank-frequency table of `score_five` on the sorted ranks. -/
def freq5 (r0 r1 r2 r3 r4 : Nat) : Nat → Nat :=
  fun r => [r0, r1, r2, r3, r4].count r

/-- The tiebreaker word of `score_five`: the sorted ranks packed into
nibbles. -/
def tb5 (r0 r1 r2 r3 r4 : Nat) : Nat :=
  (r0 <<< 16) ||| (r1 <<< 12) ||| (r2 <<< 8) ||| (r3 <<< 4) ||| r4

/-- The branch logic of `score_five` from `coordinator/src/hand_eval.rs`
after its bubble sort: `is_flush` is the all-suits-equal test on the
original cards, `r0 ≥ … ≥ r4` are the sorted ranks.  Splitting the function
at the sort boundary changes nothing observable (the suits and the sorted
ranks are computed before any branch fires in the source). -/
def score_five_sorted (is_flush : Bool) (r0 r1 r2 r3 r4 : Nat) : Nat :=
  let g := freq_scan (freq5 r0 r1 r2 r3 r4)
  if is_flush ∧ is_straight5 r0 r1 r2 r3 r4 ∧ r0 = 12 then
    (9 <<< 20) ||| tb5 r0 r1 r2 r3 r4
  else if is_flush ∧ (is_straight5 r0 r1 r2 r3 r4 ∨ is_wheel5 r0 r1 r2 r3 r4) then
    (8 <<< 20) ||| (if is_wheel5 r0 r1 r2 r3 r4 then 3 <<< 16 else tb5 r0 r1 r2 r3 r4)
  else if g.has_four then (7 <<< 20) ||| (g.four_rank <<< 16)
  else if g.has_three ∧ g.pair_count ≥ 1 then
    (6 <<< 20) ||| (g.three_rank <<< 8) ||| g.pair_rank_hi
  else if is_flush then (5 <<< 20) ||| tb5 r0 r1 r2 r3 r4
  else if is_straight5 r0 r1 r2 r3 r4 ∨ is_wheel5 r0 r1 r2 r3 r4 then
    (4 <<< 20) ||| (if is_wheel5 r0 r1 r2 r3 r4 then 3 <<< 16 else r0 <<< 16)
  else if g.has_three then (3 <<< 20) ||| (g.three_rank <<< 16)
  else if g.pair_count = 2 then
    (2 <<< 20) ||| (g.pair_rank_hi <<< 12) ||| (g.pair_rank_lo <<< 8)
  else if g.pair_count = 1 then (1 <<< 20) ||| (g.pair_rank_hi <<< 16)
  else tb5 r0 r1 r2 r3 r4

/-- `score_five` from `coordinator/src/hand_eval.rs`: score exactly five
cards, `category << 20 | tiebreaker` (ranks are `card % 13`, suits
`card / 13`, ranks bubble-sorted descending before the branch logic). -/
def score_five (c0 c1 c2 c3 c4 : Nat) : Nat :=
  match sortRanks (c0 % 13) (c1 % 13) (c2 % 13) (c3 % 13) (c4 % 13) with
  | (r0, r1, r2, r3, r4) =>
    score_five_sorted
      (decide (c0 / 13 = c1 / 13 ∧ c1 / 13 = c2 / 13 ∧ c2 / 13 = c3 / 13 ∧ c3 / 13 = c4 / 13))
      r0 r1 r2 r3 r4

/-- The hand category (0 = high card … 9 = royal flush) that the branch
structure of `score_five_sorted` assigns, read off the same inputs through
the same guards: the specification-side reading of "category" used to
compare hands. -/
def category_sorted (is_flush : Bool) (r0 r1 r2 r3 r4 : Nat) : Nat :=
  let g := freq_scan (freq5 r0 r1 r2 r3 r4)
  if is_flush ∧ is_straight5 r0 r1 r2 r3 r4 ∧ r0 = 12 then 9
  else if is_flush ∧ (is_straight5 r0 r1 r2 r3 r4 ∨ is_wheel5 r0 r1 r2 r3 r4) then 8
  else if g.has_four then 7
  else if g.has_three ∧ g.pair_count ≥ 1 then 6
  else if is_flush then 5
  else if is_straight5 r0 r1 r2 r3 r4 ∨ is_wheel5 r0 r1 r2 r3 r4 then 4
  else if g.has_three then 3
  else if g.pair_count = 2 then 2
  else if g.pair_count = 1 then 1
  else 0

/-- The category of a full 5-card hand. -/
def categoryFive (c0 c1 c2 c3 c4 : Nat) : Nat :=
  match sortRanks (c0 % 13) (c1 % 13) (c2 % 13) (c3 % 13) (c4 % 13) with
  | (r0, r1, r2, r3, r4) =>
    category_sorted
      (decide (c0 / 13 = c1 / 13 ∧ c1 / 13 = c2 / 13 ∧ c2 / 13 = c3 / 13 ∧ c3 / 13 = c4 / 13))
      r0 r1 r2 r3 r4

/-- Apply `score_five` to a 5-element list. -/
def score_five_list (hand : List Nat) : Nat :=
  match hand with
  | [c0, c1, c2, c3, c4] => score_five c0 c1 c2 c3 c4
  | _ => 0

/-- `evaluate_hand_rank` from `coordinator/src/hand_eval.rs`: best
`score_five` over the 21 5-card subsets chosen by skipping `skip1 < skip2`. -/
def evaluate_hand_rank (cards : List Nat) : Nat :=
  (List.range 7).foldl
    (fun best skip1 =>
      (List.range' (skip1 + 1) (7 - (skip1 + 1))).foldl
        (fun b skip2 =>
          let hand := ((List.range 7).filter (fun k => k ≠ skip1 ∧ k ≠ skip2)).map
            (fun k => cards.getD k 0)
          let s := score_five_list hand
          if s > b then s else b)
        best)
    0

end HandEval

namespace NodeSvc

/-- `SessionStatus` from `node/src/session.rs`. -/
inductive SessionStatus
  | SharesReceived
  | WitnessGenerating
  | ProofGenerating
  | Complete
  | Failed (reason : String)
deriving Repr, DecidableEq

/-- An insert-or-replace map update, the behaviour of
`HashMap::insert` on `partial_share_paths` in `node/src/session.rs`. -/
def hm_insert (k v : Nat) : List (Nat × Nat) → List (Nat × Nat)
  | [] => [(k, v)]
  | (k', v') :: rest => if k' = k then (k, v) :: rest else (k', v') :: hm_insert k v rest

/-- `MpcSessionState` from `node/src/session.rs`.  File-system paths are
deterministic in the source party id (`share_source_{id}.shared`), so a
fragment entry is modelled as `(source_party_id, path token)`. -/
structure MpcSessionState where
  session_id : String
  circuit_name : String
  status : SessionStatus
  partial_share_paths : List (Nat × Nat)
  expected_total_parties : Option Nat
deriving Repr, DecidableEq

/-- `MpcSessionState::new` from `node/src/session.rs`. -/
def session_new (session_id circuit_name : String) : MpcSessionState :=
  { session_id := session_id
    circuit_name := circuit_name
    status := .SharesReceived
    partial_share_paths := []
    expected_total_parties := none }

/-- `receive_share_fragment` from `node/src/session.rs`.  The base64 decode
and file write are external effects modelled as succeeding (the claims under
study concern well-formed fragments); all guards and the map update are as in
the source, in source order. -/
def receive_share_fragment (s : MpcSessionState) (source_party_id total_parties : Nat) :
    Except String MpcSessionState := do
  if source_party_id ≥ total_parties then
    .error ("source_party_id " ++ toString source_party_id
      ++ " out of range for total_parties " ++ toString total_parties)
  else
  let s ← (match s.expected_total_parties with
    | some expected =>
      if expected ≠ total_parties then
        .error ("total_parties mismatch: existing " ++ toString expected
          ++ ", got " ++ toString total_parties)
      else .ok s
    | none => .ok { s with expected_total_parties := some total_parties })
  .ok { s with
    partial_share_paths := hm_insert source_party_id source_party_id s.partial_share_paths
    status := .SharesReceived }

/-- Outcome of the external `co-noir` merge/witness/proof pipeline invoked by
`run_proof_generation` once the fragment-count gate has passed. -/
inductive ProverOutcome
  | success (proof_bytes : List Nat) (public_inputs : List String)
  | failure (msg : String)
deriving Repr, DecidableEq

/-- `run_proof_generation` from `node/src/session.rs`: the fragment-count
gate is checked before anything is spawned; past it, the subprocess pipeline
is external and its outcome is the `outcome` parameter. -/
def run_proof_generation (partial_share_paths : List (Nat × Nat))
    (expected_total_parties : Nat) (outcome : ProverOutcome) :
    Except String (List Nat × List String) :=
  if partial_share_paths.length ≠ expected_total_parties then
    .error ("incomplete share fragments: got " ++ toString partial_share_paths.length
      ++ ", expected " ++ toString expected_total_parties)
  else
    match outcome with
    | .success proof_bytes public_inputs => .ok (proof_bytes, public_inputs)
    | .failure msg => .error msg

/-- `post_generate` from `node/src/api.rs` followed by its spawned task: a
session with no fragments is rejected synchronously (HTTP 400, the
`.error`); otherwise the call is accepted and the session's final status is
`Complete` on success and `Failed reason` on failure. -/
def generate_final_status (s : MpcSessionState) (outcome : ProverOutcome) :
    Except String SessionStatus :=
  match s.expected_total_parties with
  | none => .error "no share fragments received"
  | some expected =>
    match run_proof_generation s.partial_share_paths expected outcome with
    | .ok _ => .ok .Complete
    | .error e => .ok (.Failed e)

/-- The status string `get_status` in `node/src/api.rs` reports to pollers. -/
def status_string : SessionStatus → String
  | .SharesReceived => "shares_received"
  | .WitnessGenerating => "witness_generating"
  | .ProofGenerating => "proof_generating"
  | .Complete => "complete"
  | .Failed e => "failed: " ++ e

end NodeSvc

namespace Coord

/-- The HTTP status codes `request_reveal` in
`coordinator/src/api/mod.rs` can produce. -/
inductive StatusCode
  | ok200
  | badRequest
  | notFound
  | conflict
  | serviceUnavailable
  | badGateway
  | tooManyRequests
deriving Repr, DecidableEq

/-- Insert-or-replace on a string-keyed map (`HashMap::insert`). -/
def sm_insert (k : String) (v : α) : List (String × α) → List (String × α)
  | [] => [(k, v)]
  | (k', v') :: rest => if k' = k then (k, v) :: rest else (k', v') :: sm_insert k v rest

/-- Lookup on a string-keyed map (`HashMap::get`). -/
def sm_get (k : String) : List (String × α) → Option α
  | [] => none
  | (k', v') :: rest => if k' = k then some v' else sm_get k rest

/-- `TableSession` from `coordinator/src/main.rs` (orchestrator-side,
ephemeral, per table). -/
structure TableSession where
  table_id : Nat
  deck_root : String
  hand_commitments : List String
  player_order : List String
  dealt_indices : List Nat
  player_card_positions : List (Nat × Nat)
  board_indices : List Nat
  phase : String
  deal_session_id : String
  deal_tx_hash : Option String
  reveal_tx_hashes : List (String × String)
  reveal_session_ids : List (String × String)
  revealed_cards_by_phase : List (String × List Nat)
  showdown_tx_hash : Option String
  showdown_session_id : Option String
  showdown_result : Option (String × Nat)
  proof_nonce : Nat
deriving Repr, DecidableEq

/-- `RevealResponse` from `coordinator/src/api/types.rs`. -/
structure RevealResponse where
  status : String
  cards : List Nat
  proof_size : Nat
  session_id : String
  tx_hash : Option String
deriving Repr, DecidableEq

/-- The external collaborators of one `request_reveal` attempt: the MPC
prepare fan-out, the proof generation across workers, the parse of the
circuit's public outputs, and the ledger submission.  `submit_tx_hash` is
`none` when the ledger returned an empty hash (unconfigured soft no-op). -/
structure RevealExternal where
  prepare_ok : Bool
  generate_ok : Bool
  worker_session_id : String
  proof_size : Nat
  parsed_cards : List Nat
  parsed_indices : List Nat
  submit_tx_hash : Option String
deriving Repr, DecidableEq

/-- `next_proof_session_id` from `coordinator/src/api/session.rs`. -/
def next_proof_session_id (sess : TableSession) (label : String) : TableSession × String :=
  let sess := { sess with proof_nonce := sess.proof_nonce + 1 }
  (sess, "table-" ++ toString sess.table_id ++ "-" ++ label ++ "-" ++ toString sess.proof_nonce)

/-- `request_reveal` from `coordinator/src/api/mod.rs`, on an existing
in-memory session.  Rate limiting, node-endpoint configuration and request
parsing are satisfied preconditions; the MPC and ledger collaborators are
`ext`.  The source's control flow is kept in order: phase-window validation,
the expected-next-phase check, the cached-tx-hash short circuit, then
prepare → generate → parse → submit → session update. -/
def request_reveal (sess : TableSession) (phase : String) (ext : RevealExternal) :
    Except StatusCode (RevealResponse × TableSession) := do
  if phase ≠ "flop" ∧ phase ≠ "turn" ∧ phase ≠ "river" then .error .badRequest else
  let expected_next_phase ← (match sess.phase with
    | "preflop" => .ok "flop"
    | "flop" => .ok "turn"
    | "turn" => .ok "river"
    | _ => .error StatusCode.conflict)
  if phase ≠ expected_next_phase then .error .conflict else
  match sm_get phase sess.reveal_tx_hashes with
  | some existing_hash =>
    let cards := (sm_get phase sess.revealed_cards_by_phase).getD []
    let session_id := (sm_get phase sess.reveal_session_ids).getD ""
    .ok ({ status := "revealed"
           cards := cards
           proof_size := 0
           session_id := session_id
           tx_hash := some existing_hash }, sess)
  | none => do
    if !ext.prepare_ok then .error .badGateway else
    let (sess, _proof_session_id) := next_proof_session_id sess ("reveal-" ++ phase)
    if !ext.generate_ok then .error .badGateway else
    let _num_revealed ← (match phase with
      | "flop" => .ok 3
      | "turn" => .ok 1
      | "river" => .ok 1
      | _ => .error StatusCode.badRequest)
    let tx_hash := ext.submit_tx_hash
    let sess := { sess with
      dealt_indices := sess.dealt_indices ++ ext.parsed_indices
      board_indices := sess.board_indices ++ ext.parsed_indices
      phase := phase }
    let sess := match tx_hash with
      | some hash => { sess with reveal_tx_hashes := sm_insert phase hash sess.reveal_tx_hashes }
      | none => sess
    let sess := { sess with
      reveal_session_ids := sm_insert phase ext.worker_session_id sess.reveal_session_ids
      revealed_cards_by_phase := sm_insert phase ext.parsed_cards sess.revealed_cards_by_phase }
    .ok ({ status := "revealed"
           cards := ext.parsed_cards
           proof_size := ext.proof_size
           session_id := ext.worker_session_id
           tx_hash := tx_hash }, sess)

end Coord

namespace PokerTable

/-- The conserved quantity of the spec's conservation property: all player
stacks plus the pot.  (No modelled in-hand operation pays out of the table;
`leave_table` does, and is not an in-hand operation.) -/
def chip_total (t : TableState) : Int :=
  (t.players.map (·.stack)).sum + t.pot

/-- Basic well-formedness carried along hand sequences: the pot and all
stacks are non-negative and the blinds are non-negatively configured. -/
def ChipInv (t : TableState) : Prop :=
  0 ≤ t.pot ∧ (∀ p ∈ t.players, 0 ≤ p.stack) ∧
    0 ≤ t.config.small_blind ∧ 0 ≤ t.config.big_blind

instance (t : TableState) : Decidable (ChipInv t) := by
  unfold ChipInv; infer_instance

/-- One legal in-hand operation: a successful call of one of the contract's
hand-lifecycle entry points (`start_hand`, `commit_deal`, `player_action`,
`reveal_board`, `submit_showdown`, `claim_timeout`). -/
inductive HandStep : TableState → TableState → Prop
  | startHand (cl : Nat) {t t' : TableState} :
      start_hand cl t = .ok t' → HandStep t t'
  | commitDeal (cl caller dr : Nat) (hc di : List Nat) (vOk : Bool) {t t' : TableState} :
      commit_deal cl t caller dr hc di vOk = .ok t' → HandStep t t'
  | playerAction (cl player : Nat) (a : Action) {t t' : TableState} :
      player_action cl t player a = .ok t' → HandStep t t'
  | revealBoard (cl caller : Nat) (cards indices : List Nat) (vOk : Bool) {t t' : TableState} :
      reveal_board cl t caller cards indices vOk = .ok t' → HandStep t t'
  | submitShowdown (cl caller : Nat) (hole_cards : List (Nat × Nat)) (vOk : Bool)
      {t t' : TableState} :
      submit_showdown cl t caller hole_cards vOk = .ok t' → HandStep t t'
  | claimTimeout (cl : Nat) {t t' : TableState} :
      claim_timeout cl t = .ok t' → HandStep t t'

/-- A legal sequence of in-hand operations. -/
def HandSteps : TableState → TableState → Prop :=
  Relation.ReflTransGen HandStep

/-- Any successful contract entry point that mutates a table (the hand
lifecycle plus `join_table` and `leave_table`). -/
inductive ContractStep : TableState → TableState → Prop
  | hand {t t' : TableState} : HandStep t t' → ContractStep t t'
  | join (player : Nat) (buy_in : Int) (seat : Nat) {t t' : TableState} :
      join_table t player buy_in = .ok (t', seat) → ContractStep t t'
  | leave (player : Nat) (refund : Int) {t t' : TableState} :
      leave_table t player = .ok (t', refund) → ContractStep t t'

/-- A table state reachable from a freshly created table through the
contract's entry points. -/
def Reachable (t0 t : TableState) : Prop :=
  Relation.ReflTransGen ContractStep t0 t

/-- Extract the table from a successful entry-point call (fallback `d`). -/
def getOkT (e : Except Err TableState) (d : TableState) : TableState :=
  match e with
  | .ok t => t
  | .error _ => d

/-- Extract the table from a successful `join_table` (fallback `d`). -/
def getOkJ (e : Except Err (TableState × Nat)) (d : TableState) : TableState :=
  match e with
  | .ok (t, _) => t
  | .error _ => d

/-- Sum of the amounts of a side-pot list. -/
def sum_amounts (pots : List SidePot) : Int :=
  (pots.map (·.amount)).sum

/-- Total of the current-round bets of the non-folded players. -/
def total_active_bets (t : TableState) : Int :=
  ((t.players.filter (fun p => !p.folded)).map (·.bet_this_round)).sum

/-- Total of the current-round bets of all players, folded included. -/
def total_bets (t : TableState) : Int :=
  (t.players.map (·.bet_this_round)).sum

/-- The scenario configuration of the spec (§8): blinds 5/10, buy-ins up to
1000, 9 seats, a 10-ledger timeout window. -/
def cfgEx : TableConfig :=
  { min_buy_in := 1
    max_buy_in := 1000
    small_blind := 5
    big_blind := 10
    max_players := 9
    timeout_ledgers := 10 }

/-- Scenario: fresh table 0 (admin 100, committee 77, created at ledger 0). -/
def exT0 : TableState := initial_table 0 100 cfgEx 77 0

/-- Scenario: player 201 joins with a 500 buy-in. -/
def exT1 : TableState := getOkJ (join_table exT0 201 500) exT0

/-- Scenario: player 202 joins with a 500 buy-in. -/
def exT2 : TableState := getOkJ (join_table exT1 202 500) exT1

/-- Scenario: the hand is started at ledger 5 (blinds posted). -/
def exT3 : TableState := getOkT (start_hand 5 exT2) exT2

/-- Scenario: the committee commits the deal at ledger 6. -/
def exT4 : TableState := getOkT (commit_deal 6 exT3 77 99 [11, 12] [0, 1] true) exT3

/-- Scenario: seat 0 folds preflop at ledger 7; the hand settles. -/
def exT5 : TableState := getOkT (player_action 7 exT4 201 .Fold) exT4

/-- Short-stack table used against the turn-validity claim: player 301 can
only buy in 1 chip (below the small blind), player 302 buys in 500. -/
def sbT1 : TableState := getOkJ (join_table exT0 301 1) exT0

/-- Short-stack table, both players seated. -/
def sbT2 : TableState := getOkJ (join_table sbT1 302 500) sbT1

/-- Short-stack table: the hand starts and the 1-chip small blind is forced
all-in by the blind posting. -/
def sbT3 : TableState := getOkT (start_hand 5 sbT2) sbT2

/-- Short-stack table: `commit_deal` gives the first turn to
`(dealer_seat + 3) % 2 = 0`, the all-in seat, while entering Preflop. -/
def sbT4 : TableState := getOkT (commit_deal 6 sbT3 77 99 [11, 12] [0, 1] true) sbT3

/-- Side-pot example: a folded player with chips in, an all-in at 20 and a
live caller at 20; `pot` carries all 50 contributed chips. -/
def spEx : TableState :=
  { exT0 with
    phase := .Flop
    pot := 50
    players := [
      { address := 1, stack := 90, bet_this_round := 10, folded := true,
        all_in := false, sitting_out := false, seat_index := 0 },
      { address := 2, stack := 0, bet_this_round := 20, folded := false,
        all_in := true, sitting_out := false, seat_index := 1 },
      { address := 3, stack := 80, bet_this_round := 20, folded := false,
        all_in := false, sitting_out := false, seat_index := 2 }] }

/-- Result of a preflop raise by the small blind in the scenario table
(used to exercise the turn-advance path of `process_action`). -/
def paT : TableState := getOkT (process_action 7 exT4 201 (.Raise 10)) exT4

/-- Committee-timeout example: dealing stalled with pot 11, one folded and
two live players (share 5 each, remainder 1 to seat 0). -/
def toEx : TableState :=
  { exT0 with
    phase := .DealingFlop
    pot := 11
    last_action_ledger := 4
    players := [
      { address := 1, stack := 94, bet_this_round := 0, folded := false,
        all_in := false, sitting_out := false, seat_index := 0 },
      { address := 2, stack := 95, bet_this_round := 0, folded := true,
        all_in := false, sitting_out := false, seat_index := 1 },
      { address := 3, stack := 100, bet_this_round := 0, folded := false,
        all_in := false, sitting_out := false, seat_index := 2 }] }

end PokerTable

namespace Coord

/-- Reveal scenario: a table session that has just finished the deal
(orchestrator phase mirror "preflop", no reveals yet). -/
def sessEx0 : TableSession :=
  { table_id := 3
    deck_root := "dr"
    hand_commitments := []
    player_order := ["a", "b"]
    dealt_indices := [0, 1, 2, 3]
    player_card_positions := []
    board_indices := []
    phase := "preflop"
    deal_session_id := "d"
    deal_tx_hash := some "dh"
    reveal_tx_hashes := []
    reveal_session_ids := []
    revealed_cards_by_phase := []
    showdown_tx_hash := none
    showdown_session_id := none
    showdown_result := none
    proof_nonce := 1 }

/-- Reveal scenario: healthy externals; the ledger accepts and returns tx
hash "txh". -/
def extEx : RevealExternal :=
  { prepare_ok := true
    generate_ok := true
    worker_session_id := "ws"
    proof_size := 100
    parsed_cards := [5, 6, 7]
    parsed_indices := [4, 5, 6]
    submit_tx_hash := some "txh" }

/-- Reveal scenario: the session after the first successful
`request_reveal "flop"` (tx hash recorded, phase mirror advanced). -/
def sessEx1 : TableSession :=
  match request_reveal sessEx0 "flop" extEx with
  | .ok (_, s) => s
  | .error _ => sessEx0

end Coord

namespace NodeSvc

/-- Fragment scenario: a session expecting 3 parties that has received the
fragment of party 0 only. -/
def fragEx1 : MpcSessionState :=
  match receive_share_fragment (session_new "sess-1" "deal_valid") 0 3 with
  | .ok s => s
  | .error _ => session_new "sess-1" "deal_valid"

/-- Fragment scenario: party 0 submits a second time (same session). -/
def fragEx1dup : Except String MpcSessionState :=
  receive_share_fragment fragEx1 0 3

end NodeSvc


deriving instance DecidableEq for Except

namespace NodeSvc

theorem hm_insert_length_of_mem (k v : Nat) :
    ∀ m : List (Nat × Nat), k ∈ m.map (·.1) → (hm_insert k v m).length = m.length := by
  intro m
  induction m with
  | nil => intro h; simp at h
  | cons kv rest ih =>
    intro h
    by_cases hk : kv.1 = k
    · simp [hm_insert, hk]
    · have hmem : k ∈ rest.map (·.1) := by
        simp only [List.map_cons, List.mem_cons] at h
        rcases h with h | h
        · exact absurd h.symm hk
        · exact h
      simp [hm_insert, hk, ih hmem]

end NodeSvc

/-- C7: for a table of 2 players who each bought in 500 with blinds 5/10,
starting the hand leaves pot = 15, seat 0 with stack 495 and bet 5 (small
blind, posting capped at the stack would force all-in if short), seat 1 with
stack 490 and bet 10 (big blind); after the deal is committed seat 0 folds
preflop, and the hand settles with phase Settlement, pot = 0 and seat 1's
stack = 505. -/
theorem PokerTable.scenario_blinds_and_fold_win :
    exT3.pot = 15 ∧
    exT3.players.map (fun p => (p.stack, p.bet_this_round)) = [(495, 5), (490, 10)] ∧
    exT3.phase = .Dealing ∧
    exT4.phase = .Preflop ∧ exT4.current_turn = 0 ∧
    exT5.phase = .Settlement ∧ exT5.pot = 0 ∧
    exT5.players.map (·.stack) = [495, 505] := by decide

/-- C2, the divergence on the code: after a first successful
`request_reveal "flop"` on a fresh post-deal session — which returns tx hash
"txh" and records it in the session while advancing the phase mirror — an
identical second request is rejected with 409 CONFLICT by the
expected-next-phase guard, which runs before the cached-tx-hash (idempotent
retry) branch; the cached response the spec promises is never returned. -/
theorem Coord.reveal_retry_conflict :
    request_reveal sessEx0 "flop" extEx =
      .ok ({ status := "revealed", cards := [5, 6, 7], proof_size := 100,
             session_id := "ws", tx_hash := some "txh" }, sessEx1) ∧
    sm_get "flop" sessEx1.reveal_tx_hashes = some "txh" ∧
    sessEx1.phase = "flop" ∧
    request_reveal sessEx1 "flop" extEx = .error .conflict :=
  ⟨rfl, rfl, rfl, rfl⟩

/-- C5: fragment gating.  While a proof session has received fragments from
fewer source parties than the expected total, a `generate` call — whatever
the external prover would have produced — leaves the session `Failed` with
the "incomplete share fragments" diagnostic, and `get_status` surfaces
exactly that diagnostic to pollers of the session. -/
theorem NodeSvc.generate_rejected_until_all_fragments (s : MpcSessionState) (n : Nat)
    (outcome : ProverOutcome) (hn : s.expected_total_parties = some n)
    (hlt : s.partial_share_paths.length < n) :
    generate_final_status s outcome =
      .ok (.Failed ("incomplete share fragments: got "
        ++ toString s.partial_share_paths.length ++ ", expected " ++ toString n)) ∧
    status_string (.Failed ("incomplete share fragments: got "
        ++ toString s.partial_share_paths.length ++ ", expected " ++ toString n)) =
      "failed: " ++ ("incomplete share fragments: got "
        ++ toString s.partial_share_paths.length ++ ", expected " ++ toString n) := by
  have hne : s.partial_share_paths.length ≠ n := Nat.ne_of_lt hlt
  exact ⟨by simp [generate_final_status, run_proof_generation, hn, hne], rfl⟩

/-- C5 witness: a session expecting 3 parties that holds one fragment. -/
theorem NodeSvc.generate_rejected_witness :
    fragEx1.expected_total_parties = some 3 ∧ fragEx1.partial_share_paths.length < 3 ∧
    generate_final_status fragEx1 (.failure "external prover crash") =
      .ok (.Failed ("incomplete share fragments: got "
        ++ toString fragEx1.partial_share_paths.length ++ ", expected " ++ toString 3)) :=
  ⟨by decide, by decide,
    (generate_rejected_until_all_fragments fragEx1 3 (.failure "external prover crash")
      (by decide) (by decide)).1⟩

/-- C8 counterexample: a second fragment from source party 0 for the same
session is accepted (`Ok`, HTTP 200) — not treated as a protocol error — and
simply overwrites the previously stored fragment at the same key. -/
theorem NodeSvc.duplicate_fragment_not_rejected :
    fragEx1dup = .ok fragEx1 ∧ fragEx1.partial_share_paths.length = 1 :=
  ⟨rfl, rfl⟩

/-- C8 as amended: a fragment whose `total_parties` disagrees with the
session's recorded total is rejected with the mismatch error and (errors
persisting nothing) no change to the stored fragments; a duplicate source id
with a consistent total is accepted, overwriting that source's fragment and
leaving the fragment count unchanged. -/
theorem NodeSvc.fragment_consistency_and_dedup (s : MpcSessionState) (src total n : Nat)
    (hsrc : src < total) (hexp : s.expected_total_parties = some n) :
    (n ≠ total →
      receive_share_fragment s src total =
        .error ("total_parties mismatch: existing " ++ toString n
          ++ ", got " ++ toString total)) ∧
    (n = total →
      receive_share_fragment s src total =
        .ok { s with
          partial_share_paths := hm_insert src src s.partial_share_paths
          status := .SharesReceived } ∧
      (src ∈ s.partial_share_paths.map (·.1) →
        (hm_insert src src s.partial_share_paths).length =
          s.partial_share_paths.length)) := by
  constructor
  · intro hne
    simp [receive_share_fragment, hexp, hne, Nat.not_le.2 hsrc, Bind.bind, Except.bind]
  · intro heq
    subst heq
    refine ⟨?_, fun hmem => hm_insert_length_of_mem src src _ hmem⟩
    simp [receive_share_fragment, hexp, Nat.not_le.2 hsrc, Bind.bind, Except.bind]

/-- C8 witness: on a session expecting 3 parties with a fragment from source
0, a mismatching total 4 is rejected and a duplicate with total 3 is
accepted. -/
theorem NodeSvc.fragment_consistency_witness :
    fragEx1.expected_total_parties = some 3 ∧
    receive_share_fragment fragEx1 0 4 =
      .error ("total_parties mismatch: existing " ++ toString 3 ++ ", got " ++ toString 4) ∧
    receive_share_fragment fragEx1 0 3 =
      .ok { fragEx1 with
        partial_share_paths := hm_insert 0 0 fragEx1.partial_share_paths
        status := .SharesReceived } :=
  ⟨by decide,
    (NodeSvc.fragment_consistency_and_dedup fragEx1 0 4 3 (by decide) (by decide)).1 (by decide),
    ((NodeSvc.fragment_consistency_and_dedup fragEx1 0 3 3 (by decide) (by decide)).2 rfl).1⟩

theorem mul_pow_lor_eq_add : ∀ (n a b : Nat), b < 2 ^ n → a * 2 ^ n ||| b = a * 2 ^ n + b := by
  intro n
  induction n with
  | zero =>
    intro a b hb
    have : b = 0 := by omega
    subst this
    simp
  | succ n ih =>
    intro a b hb
    have e2 : Nat.bit (decide (b % 2 = 1)) (b >>> 1) = b :=
      Nat.bit_decide_mod_two_eq_one_shiftRight_one b
    have e1 : a * 2 ^ (n + 1) = Nat.bit false (a * 2 ^ n) := by
      simp [Nat.bit_val]; ring
    rw [e1, ← e2, Nat.lor_bit]
    have hb2 : b >>> 1 < 2 ^ n := by
      rw [Nat.shiftRight_one]
      omega
    rw [ih a (b >>> 1) hb2]
    simp only [Bool.false_or, Nat.bit_val]
    rcases Nat.mod_two_eq_zero_or_one b with h | h <;>
      simp [h, Nat.shiftRight_one] <;> omega

theorem shiftLeft_lor_eq_add (k low : Nat) (h : low < 2 ^ 20) :
    (k <<< 20) ||| low = k * 2 ^ 20 + low := by
  rw [Nat.shiftLeft_eq, mul_pow_lor_eq_add 20 k low h]

namespace HandEval

theorem csw_eq (a b : Nat) : csw a b = (max a b, min a b) := by
  unfold csw; split <;> simp [Prod.ext_iff] <;> omega

set_option maxHeartbeats 2000000 in
theorem sortRanks_le (a b c d e : Nat)
    (ha : a ≤ 12) (hb : b ≤ 12) (hc : c ≤ 12) (hd : d ≤ 12) (he : e ≤ 12) :
    (sortRanks a b c d e).1 ≤ 12 ∧ (sortRanks a b c d e).2.1 ≤ 12 ∧
    (sortRanks a b c d e).2.2.1 ≤ 12 ∧ (sortRanks a b c d e).2.2.2.1 ≤ 12 ∧
    (sortRanks a b c d e).2.2.2.2 ≤ 12 := by
  simp only [sortRanks, csw_eq]
  omega

theorem foldl_inv {α β : Type} {P : β → Prop} (f : β → α → β) (l : List α) (g : β)
    (hg : P g) (hstep : ∀ b a, P b → P (f b a)) : P (l.foldl f g) := by
  induction l generalizing g with
  | nil => exact hg
  | cons x xs ih => exact ih _ (hstep _ _ hg)

theorem freq_scan_ranks_le (freq : Nat → Nat) :
    (freq_scan freq).four_rank ≤ 12 ∧ (freq_scan freq).three_rank ≤ 12 ∧
    (freq_scan freq).pair_rank_hi ≤ 12 ∧ (freq_scan freq).pair_rank_lo ≤ 12 := by
  unfold freq_scan
  refine foldl_inv (P := fun g : FreqGroups =>
    g.four_rank ≤ 12 ∧ g.three_rank ≤ 12 ∧ g.pair_rank_hi ≤ 12 ∧ g.pair_rank_lo ≤ 12)
    _ _ _ ⟨by norm_num, by norm_num, by norm_num, by norm_num⟩ ?_
  intro b a hb
  dsimp only
  split_ifs <;> simp_all
  all_goals omega

set_option maxHeartbeats 1000000 in
theorem score_category_bounds_sorted (fl : Bool) (r0 r1 r2 r3 r4 : Nat)
    (b0 : r0 ≤ 12) (b1 : r1 ≤ 12) (b2 : r2 ≤ 12) (b3 : r3 ≤ 12) (b4 : r4 ≤ 12) :
    category_sorted fl r0 r1 r2 r3 r4 * 2 ^ 20 ≤ score_five_sorted fl r0 r1 r2 r3 r4 ∧
    score_five_sorted fl r0 r1 r2 r3 r4 <
      (category_sorted fl r0 r1 r2 r3 r4 + 1) * 2 ^ 20 := by
  obtain ⟨g4, g3, gh, gl⟩ := freq_scan_ranks_le (freq5 r0 r1 r2 r3 r4)
  have e20 : (2 : Nat) ^ 20 = 1048576 := by norm_num
  have hsh : ∀ x k : Nat, x <<< k = x * 2 ^ k := fun x k => Nat.shiftLeft_eq x k
  have lt20 : ∀ x k : Nat, x ≤ 12 → (2 : Nat) ^ k ≤ 2 ^ 16 → x <<< k < 2 ^ 20 := by
    intro x k hx hk
    rw [hsh]
    calc x * 2 ^ k ≤ 12 * 2 ^ 16 := Nat.mul_le_mul hx hk
    _ < 2 ^ 20 := by norm_num
  have htb : tb5 r0 r1 r2 r3 r4 < 2 ^ 20 := by
    unfold tb5
    apply Nat.bitwise_lt
    apply Nat.bitwise_lt
    apply Nat.bitwise_lt
    apply Nat.bitwise_lt
    · exact lt20 _ _ b0 (by norm_num)
    · exact lt20 _ _ b1 (by norm_num)
    · exact lt20 _ _ b2 (by norm_num)
    · exact lt20 _ _ b3 (by norm_num)
    · omega
  have pack_bounds : ∀ k low : Nat, low < 2 ^ 20 →
      k * 2 ^ 20 ≤ (k <<< 20) ||| low ∧ (k <<< 20) ||| low < (k + 1) * 2 ^ 20 := by
    intro k low h
    rw [shiftLeft_lor_eq_add k low h]
    omega
  have h316 : (3 : Nat) <<< 16 < 2 ^ 20 := by norm_num [Nat.shiftLeft_eq]
  unfold score_five_sorted category_sorted
  dsimp only
  split_ifs
  · exact pack_bounds _ _ htb
  · exact pack_bounds _ _ h316
  · exact pack_bounds _ _ htb
  · exact pack_bounds _ _ (lt20 _ _ g4 (by norm_num))
  · rw [Nat.lor_assoc]
    exact pack_bounds _ _ (Nat.bitwise_lt (lt20 _ _ g3 (by norm_num)) (by omega))
  · exact pack_bounds _ _ htb
  · exact pack_bounds _ _ h316
  · exact pack_bounds _ _ (lt20 _ _ b0 (by norm_num))
  · exact pack_bounds _ _ (lt20 _ _ g3 (by norm_num))
  · rw [Nat.lor_assoc]
    exact pack_bounds _ _ (Nat.bitwise_lt (lt20 _ _ gh (by norm_num)) (lt20 _ _ gl (by norm_num)))
  · exact pack_bounds _ _ (lt20 _ _ gh (by norm_num))
  · exact ⟨by omega, by omega⟩

end HandEval

namespace HandEval

theorem score_category_bounds (c0 c1 c2 c3 c4 : Nat) :
    categoryFive c0 c1 c2 c3 c4 * 2 ^ 20 ≤ score_five c0 c1 c2 c3 c4 ∧
    score_five c0 c1 c2 c3 c4 < (categoryFive c0 c1 c2 c3 c4 + 1) * 2 ^ 20 := by
  have hm : ∀ x : Nat, x % 13 ≤ 12 := fun x => by omega
  obtain ⟨q0, q1, q2, q3, q4⟩ :=
    sortRanks_le (c0 % 13) (c1 % 13) (c2 % 13) (c3 % 13) (c4 % 13)
      (hm c0) (hm c1) (hm c2) (hm c3) (hm c4)
  rcases e : sortRanks (c0 % 13) (c1 % 13) (c2 % 13) (c3 % 13) (c4 % 13)
    with ⟨r0, r1, r2, r3, r4⟩
  rw [e] at q0 q1 q2 q3 q4
  simp only at q0 q1 q2 q3 q4
  unfold score_five categoryFive
  rw [e]
  exact score_category_bounds_sorted _ _ _ _ _ _ q0 q1 q2 q3 q4

theorem sortRanks_wheel (r0 r1 r2 r3 r4 : Nat)
    (h : [r0, r1, r2, r3, r4].Perm [12, 3, 2, 1, 0]) :
    sortRanks r0 r1 r2 r3 r4 = (12, 3, 2, 1, 0) := by
  have h0 : r0 = 12 ∨ r0 = 3 ∨ r0 = 2 ∨ r0 = 1 ∨ r0 = 0 := by
    have : r0 ∈ [12, 3, 2, 1, 0] := h.mem_iff.1 (by simp)
    simpa using this
  have h1 : r1 = 12 ∨ r1 = 3 ∨ r1 = 2 ∨ r1 = 1 ∨ r1 = 0 := by
    have : r1 ∈ [12, 3, 2, 1, 0] := h.mem_iff.1 (by simp)
    simpa using this
  have h2 : r2 = 12 ∨ r2 = 3 ∨ r2 = 2 ∨ r2 = 1 ∨ r2 = 0 := by
    have : r2 ∈ [12, 3, 2, 1, 0] := h.mem_iff.1 (by simp)
    simpa using this
  have h3 : r3 = 12 ∨ r3 = 3 ∨ r3 = 2 ∨ r3 = 1 ∨ r3 = 0 := by
    have : r3 ∈ [12, 3, 2, 1, 0] := h.mem_iff.1 (by simp)
    simpa using this
  have h4 : r4 = 12 ∨ r4 = 3 ∨ r4 = 2 ∨ r4 = 1 ∨ r4 = 0 := by
    have : r4 ∈ [12, 3, 2, 1, 0] := h.mem_iff.1 (by simp)
    simpa using this
  rcases h0 with rfl | rfl | rfl | rfl | rfl <;>
    rcases h1 with rfl | rfl | rfl | rfl | rfl <;>
    rcases h2 with rfl | rfl | rfl | rfl | rfl <;>
    rcases h3 with rfl | rfl | rfl | rfl | rfl <;>
    rcases h4 with rfl | rfl | rfl | rfl | rfl <;>
    first
      | rfl
      | exact absurd h (by decide)

theorem straight_beats_wheel_sorted (fl : Bool) (h : Nat) (hge : 4 ≤ h) (hle : h ≤ 12) :
    (4 <<< 20) ||| (3 <<< 16) <
      score_five_sorted fl h (h - 1) (h - 2) (h - 3) (h - 4) := by
  interval_cases h <;> cases fl <;> decide

theorem count_le_one5 (h0 h1 h2 h3 h4 : Nat)
    (d01 : h0 ≠ h1) (d02 : h0 ≠ h2) (d03 : h0 ≠ h3) (d04 : h0 ≠ h4)
    (d12 : h1 ≠ h2) (d13 : h1 ≠ h3) (d14 : h1 ≠ h4)
    (d23 : h2 ≠ h3) (d24 : h2 ≠ h4) (d34 : h3 ≠ h4) :
    ∀ r, freq5 h0 h1 h2 h3 h4 r ≤ 1 := by
  intro r
  unfold freq5
  simp only [List.count_cons, List.count_nil, beq_iff_eq]
  split_ifs <;> omega

theorem freq_scan_of_le_one (freq : Nat → Nat) (h : ∀ r, freq r ≤ 1) :
    freq_scan freq = ⟨false, 0, false, 0, 0, 0, 0⟩ := by
  unfold freq_scan
  refine foldl_inv (P := fun g : FreqGroups => g = ⟨false, 0, false, 0, 0, 0, 0⟩)
    _ _ _ rfl ?_
  intro b a hb
  subst hb
  dsimp only
  have := h (12 - a)
  rw [if_neg (by omega), if_neg (by omega), if_neg (by omega)]

end HandEval

namespace HandEval

theorem highcard_below_wheel_sorted (h0 h1 h2 h3 h4 : Nat)
    (q0 : h0 ≤ 12) (q1 : h1 ≤ 12) (q2 : h2 ≤ 12) (q3 : h3 ≤ 12) (q4 : h4 ≤ 12)
    (d01 : h0 ≠ h1) (d02 : h0 ≠ h2) (d03 : h0 ≠ h3) (d04 : h0 ≠ h4)
    (d12 : h1 ≠ h2) (d13 : h1 ≠ h3) (d14 : h1 ≠ h4)
    (d23 : h2 ≠ h3) (d24 : h2 ≠ h4) (d34 : h3 ≠ h4)
    (hns : ¬(h0 = h1 + 1 ∧ h1 = h2 + 1 ∧ h2 = h3 + 1 ∧ h3 = h4 + 1))
    (hnw : ¬(h0 = 12 ∧ h1 = 3 ∧ h2 = 2 ∧ h3 = 1 ∧ h4 = 0)) :
    score_five_sorted false h0 h1 h2 h3 h4 < (4 <<< 20) ||| (3 <<< 16) := by
  have hscan : freq_scan (freq5 h0 h1 h2 h3 h4) = ⟨false, 0, false, 0, 0, 0, 0⟩ :=
    freq_scan_of_le_one _ (count_le_one5 h0 h1 h2 h3 h4 d01 d02 d03 d04 d12 d13 d14 d23 d24 d34)
  have hs : is_straight5 h0 h1 h2 h3 h4 = false := by
    unfold is_straight5
    exact decide_eq_false hns
  have hw : is_wheel5 h0 h1 h2 h3 h4 = false := by
    unfold is_wheel5
    exact decide_eq_false hnw
  have htb : tb5 h0 h1 h2 h3 h4 < 2 ^ 20 := by
    have hsh : ∀ x k : Nat, x <<< k = x * 2 ^ k := fun x k => Nat.shiftLeft_eq x k
    have lt20 : ∀ x k : Nat, x ≤ 12 → (2 : Nat) ^ k ≤ 2 ^ 16 → x <<< k < 2 ^ 20 := by
      intro x k hx hk
      rw [hsh]
      calc x * 2 ^ k ≤ 12 * 2 ^ 16 := Nat.mul_le_mul hx hk
      _ < 2 ^ 20 := by norm_num
    unfold tb5
    apply Nat.bitwise_lt
    apply Nat.bitwise_lt
    apply Nat.bitwise_lt
    apply Nat.bitwise_lt
    · exact lt20 _ _ q0 (by norm_num)
    · exact lt20 _ _ q1 (by norm_num)
    · exact lt20 _ _ q2 (by norm_num)
    · exact lt20 _ _ q3 (by norm_num)
    · omega
  have hval : (4 <<< 20) ||| (3 <<< 16) = 4390912 := by decide
  unfold score_five_sorted
  dsimp only
  rw [hscan, hs, hw]
  simp only [Bool.false_and, Bool.false_or, Bool.and_false]
  norm_num
  omega

end HandEval

/-- C10: category dominance.  If `score_five` assigns one 5-card hand a
strictly higher category than another (category read off the same branch
structure), its packed numeric score is strictly greater, because every
tiebreaker field in the low bits stays below `2^20`; so winner selection by
maximum score always prefers the higher category. -/
theorem HandEval.category_dominance (a0 a1 a2 a3 a4 b0 b1 b2 b3 b4 : Nat)
    (h : categoryFive b0 b1 b2 b3 b4 < categoryFive a0 a1 a2 a3 a4) :
    score_five b0 b1 b2 b3 b4 < score_five a0 a1 a2 a3 a4 := by
  obtain ⟨la, _⟩ := score_category_bounds a0 a1 a2 a3 a4
  obtain ⟨_, rb⟩ := score_category_bounds b0 b1 b2 b3 b4
  have step : (categoryFive b0 b1 b2 b3 b4 + 1) * 2 ^ 20 ≤
      categoryFive a0 a1 a2 a3 a4 * 2 ^ 20 :=
    Nat.mul_le_mul_right _ (by omega)
  omega

/-- C10 witness: a pair of deuces (category 1) against a 10-high high card
hand (category 0). -/
theorem HandEval.category_dominance_witness :
    categoryFive 0 2 4 6 22 < categoryFive 0 13 2 4 6 ∧
    score_five 0 2 4 6 22 < score_five 0 13 2 4 6 :=
  ⟨by decide, category_dominance 0 13 2 4 6 0 2 4 6 22 (by decide)⟩

/-- C9 counterexample: the club flush 2-4-6-8-10 has pairwise distinct,
non-consecutive ranks — a non-straight hand without a pair — yet outscores
the (non-flush) wheel, so the wheel is not "strictly greater than any
non-straight hand without a pair". -/
theorem HandEval.flush_beats_wheel :
    sortRanks (0 % 13) (2 % 13) (4 % 13) (6 % 13) (8 % 13) = (8, 6, 4, 2, 0) ∧
    categoryFive 0 2 4 6 8 = 5 ∧
    score_five 12 0 1 2 16 = (4 <<< 20) ||| (3 <<< 16) ∧
    score_five 12 0 1 2 16 < score_five 0 2 4 6 8 := by decide

/-- C9 as amended: five cards whose ranks are exactly A-2-3-4-5, not all of
one suit, score as the 5-high straight `(4 <<< 20) ||| (3 <<< 16)` — never an
ace-high score; this is strictly below every 6-high-or-better straight
(flush or not) and strictly above every high-card hand (pairwise distinct
ranks, no straight, no wheel, no flush). -/
theorem HandEval.wheel_scores_as_five_high_straight
    (c0 c1 c2 c3 c4 : Nat)
    (hr : [c0 % 13, c1 % 13, c2 % 13, c3 % 13, c4 % 13].Perm [12, 3, 2, 1, 0])
    (hs : ¬(c0 / 13 = c1 / 13 ∧ c1 / 13 = c2 / 13 ∧ c2 / 13 = c3 / 13 ∧ c3 / 13 = c4 / 13)) :
    score_five c0 c1 c2 c3 c4 = (4 <<< 20) ||| (3 <<< 16) ∧
    (∀ d0 d1 d2 d3 d4 h, 4 ≤ h →
      sortRanks (d0 % 13) (d1 % 13) (d2 % 13) (d3 % 13) (d4 % 13)
        = (h, h - 1, h - 2, h - 3, h - 4) →
      score_five c0 c1 c2 c3 c4 < score_five d0 d1 d2 d3 d4) ∧
    (∀ e0 e1 e2 e3 e4 h0 h1 h2 h3 h4,
      sortRanks (e0 % 13) (e1 % 13) (e2 % 13) (e3 % 13) (e4 % 13) = (h0, h1, h2, h3, h4) →
      h0 ≠ h1 → h0 ≠ h2 → h0 ≠ h3 → h0 ≠ h4 → h1 ≠ h2 → h1 ≠ h3 → h1 ≠ h4 →
      h2 ≠ h3 → h2 ≠ h4 → h3 ≠ h4 →
      ¬(h0 = h1 + 1 ∧ h1 = h2 + 1 ∧ h2 = h3 + 1 ∧ h3 = h4 + 1) →
      ¬(h0 = 12 ∧ h1 = 3 ∧ h2 = 2 ∧ h3 = 1 ∧ h4 = 0) →
      ¬(e0 / 13 = e1 / 13 ∧ e1 / 13 = e2 / 13 ∧ e2 / 13 = e3 / 13 ∧ e3 / 13 = e4 / 13) →
      score_five e0 e1 e2 e3 e4 < score_five c0 c1 c2 c3 c4) := by
  have e := HandEval.sortRanks_wheel _ _ _ _ _ hr
  have hcval : score_five c0 c1 c2 c3 c4 = (4 <<< 20) ||| (3 <<< 16) := by
    unfold score_five
    rw [e, decide_eq_false hs]
    decide
  refine ⟨hcval, ?_, ?_⟩
  · intro d0 d1 d2 d3 d4 h hge hsort
    have hm : ∀ x : Nat, x % 13 ≤ 12 := fun x => by omega
    obtain ⟨q0, _, _, _, _⟩ :=
      HandEval.sortRanks_le (d0 % 13) (d1 % 13) (d2 % 13) (d3 % 13) (d4 % 13)
        (hm d0) (hm d1) (hm d2) (hm d3) (hm d4)
    rw [hsort] at q0
    simp only at q0
    rw [hcval]
    unfold score_five
    rw [hsort]
    exact HandEval.straight_beats_wheel_sorted _ h hge q0
  · intro e0 e1 e2 e3 e4 h0 h1 h2 h3 h4 hsort d01 d02 d03 d04 d12 d13 d14 d23 d24 d34
      hns hnw hnf
    have hm : ∀ x : Nat, x % 13 ≤ 12 := fun x => by omega
    obtain ⟨q0, q1, q2, q3, q4⟩ :=
      HandEval.sortRanks_le (e0 % 13) (e1 % 13) (e2 % 13) (e3 % 13) (e4 % 13)
        (hm e0) (hm e1) (hm e2) (hm e3) (hm e4)
    rw [hsort] at q0 q1 q2 q3 q4
    simp only at q0 q1 q2 q3 q4
    rw [hcval]
    unfold score_five
    rw [hsort, decide_eq_false hnf]
    exact HandEval.highcard_below_wheel_sorted h0 h1 h2 h3 h4 q0 q1 q2 q3 q4
      d01 d02 d03 d04 d12 d13 d14 d23 d24 d34 hns hnw

/-- C9 witness: the wheel A♣2♣3♣4♣5♦ (cards 12,0,1,2,16) against the 6-high
straight 2-3-4-5-6 (cards 4,16,2,14,0) and the 10-high high-card hand
(cards 0,2,17,6,9). -/
theorem HandEval.wheel_scores_witness :
    ([12 % 13, 0 % 13, 1 % 13, 2 % 13, 16 % 13].Perm [12, 3, 2, 1, 0]) ∧
    score_five 12 0 1 2 16 = (4 <<< 20) ||| (3 <<< 16) ∧
    score_five 12 0 1 2 16 < score_five 4 16 2 14 0 ∧
    score_five 0 2 17 6 9 < score_five 12 0 1 2 16 :=
  have main := HandEval.wheel_scores_as_five_high_straight 12 0 1 2 16 (by decide) (by decide)
  ⟨by decide, main.1,
    main.2.1 4 16 2 14 0 4 (by decide) (by decide),
    main.2.2 0 2 17 6 9 9 6 4 2 0 (by decide) (by decide) (by decide) (by decide) (by decide)
      (by decide) (by decide) (by decide) (by decide) (by decide) (by decide) (by decide)
      (by decide) (by decide)⟩

namespace PokerTable

theorem add_first_getElem (r : Int) :
    ∀ (l : List PlayerState) (j : Nat),
      (add_to_first_active r l)[j]? = (l[j]?).map (fun p =>
        if j = l.findIdx (fun q => !q.folded) then { p with stack := p.stack + r } else p) := by
  intro l
  induction l with
  | nil => intro j; simp [add_to_first_active]
  | cons p ps ih =>
    intro j
    by_cases hf : p.folded
    · have hfi : (p :: ps).findIdx (fun q => !q.folded) =
          ps.findIdx (fun q => !q.folded) + 1 := by
        simp [List.findIdx_cons, hf]
      cases j with
      | zero => simp [add_to_first_active, hf, hfi]
      | succ j =>
        simp only [add_to_first_active, hf]
        rw [if_neg (by simp [hf])]
        simp only [List.getElem?_cons_succ, hfi]
        rw [ih j]
        cases hj : ps[j]? with
        | none => simp
        | some q =>
          simp only [Option.map]
          congr 1
          by_cases he : j = ps.findIdx (fun q => !q.folded)
          · rw [if_pos he, if_pos (by omega)]
          · rw [if_neg he, if_neg (by omega)]
    · have hfi : (p :: ps).findIdx (fun q => !q.folded) = 0 := by
        simp [List.findIdx_cons, hf]
      cases j with
      | zero => simp [add_to_first_active, hf, hfi]
      | succ j =>
        simp only [add_to_first_active, hf]
        rw [if_pos (by simp [hf])]
        simp only [List.getElem?_cons_succ, hfi]
        cases hj : ps[j]? with
        | none => simp
        | some q => simp

theorem findIdx_map_preserve (g : PlayerState → PlayerState)
    (hg : ∀ p, (g p).folded = p.folded) :
    ∀ l : List PlayerState,
      (l.map g).findIdx (fun q => !q.folded) = l.findIdx (fun q => !q.folded) := by
  intro l
  induction l with
  | nil => simp
  | cons p ps ih =>
    simp only [List.map_cons, List.findIdx_cons, hg p, ih]

theorem findIdx_map_share (s : Int) (l : List PlayerState) :
    (l.map (fun p : PlayerState =>
      if !p.folded then { p with stack := p.stack + s } else p)).findIdx
        (fun q => !q.folded) =
      l.findIdx (fun q => !q.folded) := by
  refine findIdx_map_preserve _ ?_ l
  intro p
  by_cases hq : p.folded <;> simp [hq]

theorem emergency_refund_ok (t : TableState) : ∃ t', emergency_refund t = .ok t' := by
  unfold emergency_refund
  dsimp only
  split
  · exact ⟨t, rfl⟩
  · split <;> exact ⟨_, rfl⟩

theorem emergency_refund_spec (t t' : TableState)
    (h : emergency_refund t = .ok t') (hact : active_player_count t ≠ 0) :
    t'.phase = .Settlement ∧ t'.pot = 0 ∧
    (∀ (j : Nat) (p : PlayerState), t.players[j]? = some p →
      t'.players[j]? = some { p with stack := p.stack
        + (if p.folded then 0 else Int.tdiv t.pot (active_player_count t : Int))
        + (if j = t.players.findIdx (fun q => !q.folded) ∧
              0 < t.pot - Int.tdiv t.pot (active_player_count t : Int) * (active_player_count t : Int)
           then t.pot - Int.tdiv t.pot (active_player_count t : Int) * (active_player_count t : Int)
           else 0) }) := by
  unfold emergency_refund at h
  dsimp only at h
  rw [if_neg hact] at h
  by_cases hpos :
      0 < t.pot - Int.tdiv t.pot (active_player_count t : Int) * (active_player_count t : Int)
  · rw [if_pos hpos] at h
    simp only [Except.ok.injEq] at h
    subst h
    refine ⟨rfl, rfl, ?_⟩
    intro j p hj
    rw [add_first_getElem, findIdx_map_share, List.getElem?_map, hj]
    simp only [Option.map_map, Option.map]
    by_cases hje : j = t.players.findIdx (fun q => !q.folded)
    · have hjlt : j < t.players.length := by
        rcases List.getElem?_eq_some_iff.1 hj with ⟨hl, _⟩
        exact hl
      have hpe : t.players[j] = p := by
        rcases List.getElem?_eq_some_iff.1 hj with ⟨hl, he⟩
        exact he
      subst hje
      have hpf : p.folded = false := by
        have hw := List.findIdx_getElem (w := hjlt)
        simp only [hpe] at hw
        simpa using hw
      rw [if_pos rfl]
      obtain ⟨a1, a2, a3, a4, a5, a6, a7⟩ := p
      simp only at hpf
      subst hpf
      simp [hpos]
    · have hnc : ¬(j = t.players.findIdx (fun q => !q.folded) ∧
          0 < t.pot - Int.tdiv t.pot (active_player_count t : Int) *
            (active_player_count t : Int)) :=
        fun hcon => hje hcon.1
      rw [if_neg hje, if_neg hnc]
      obtain ⟨a1, a2, a3, a4, a5, a6, a7⟩ := p
      by_cases hpf : a4 <;> simp_all
  · rw [if_neg hpos] at h
    simp only [Except.ok.injEq] at h
    subst h
    refine ⟨rfl, rfl, ?_⟩
    intro j p hj
    rw [List.getElem?_map, hj]
    simp only [Option.map]
    have hnc : ¬(j = t.players.findIdx (fun q => !q.folded) ∧
        0 < t.pot - Int.tdiv t.pot (active_player_count t : Int) *
          (active_player_count t : Int)) :=
      fun hcon => hpos hcon.2
    rw [if_neg hnc]
    obtain ⟨a1, a2, a3, a4, a5, a6, a7⟩ := p
    by_cases hpf : a4 <;> simp_all

/-- C6: Committee-timeout emergency refund.  When a timeout is claimed in a
dealing phase (Dealing, DealingFlop, DealingTurn, DealingRiver or Showdown)
with elapsed ledgers at least the timeout window and at least one non-folded
player, `process_timeout` succeeds; the result is in phase Settlement with pot
0, and every non-folded player's stack grows by the truncated even share
`pot tdiv active`, the first non-folded seat additionally receiving the
positive remainder.  Claiming before the window elapses yields
`TimeoutNotReached`, hence (errors never persist) no state change. -/
theorem committee_timeout_emergency_refund (cl : Nat) (t : TableState)
    (hph : t.phase = .Dealing ∨ t.phase = .DealingFlop ∨ t.phase = .DealingTurn ∨
           t.phase = .DealingRiver ∨ t.phase = .Showdown) :
    (t.config.timeout_ledgers ≤ cl - t.last_action_ledger →
      active_player_count t ≠ 0 →
      ∃ t', process_timeout cl t = .ok t' ∧
        t'.phase = .Settlement ∧ t'.pot = 0 ∧
        (∀ (j : Nat) (p : PlayerState), t.players[j]? = some p →
          t'.players[j]? = some { p with stack := p.stack
            + (if p.folded then 0 else Int.tdiv t.pot (active_player_count t : Int))
            + (if j = t.players.findIdx (fun q => !q.folded) ∧
                  0 < t.pot - Int.tdiv t.pot (active_player_count t : Int) *
                    (active_player_count t : Int)
               then t.pot - Int.tdiv t.pot (active_player_count t : Int) *
                    (active_player_count t : Int)
               else 0) })) ∧
    (t.last_action_ledger ≤ cl → cl - t.last_action_ledger < t.config.timeout_ledgers →
      process_timeout cl t = .error .TimeoutNotReached) := by
  constructor
  · intro hto hact
    have hlt : ¬(cl - t.last_action_ledger < t.config.timeout_ledgers) := by omega
    unfold process_timeout
    dsimp only
    rw [if_neg hlt]
    rcases hph with h | h | h | h | h <;> rw [h] <;>
      exact (emergency_refund_ok
          { t with phase := .Dispute, last_action_ledger := cl }).elim (fun t' ht' =>
        ⟨t', ht', emergency_refund_spec
          { t with phase := .Dispute, last_action_ledger := cl } t' ht' hact⟩)
  · intro _ hlt
    unfold process_timeout
    dsimp only
    rw [if_pos hlt]

/-- Witness for C6 at `toEx` (pot 11, two live players, one folded,
timeout window 10 open since ledger 4): claiming at ledger 20 refunds a share
of 5 to each live player, the remainder 1 to seat 0, and claiming at ledger 8
is rejected. -/
theorem committee_timeout_witness :
    (∃ t', process_timeout 20 toEx = .ok t' ∧
      t'.phase = .Settlement ∧ t'.pot = 0 ∧
      (∀ (j : Nat) (p : PlayerState), toEx.players[j]? = some p →
        t'.players[j]? = some { p with stack := p.stack
          + (if p.folded then 0 else Int.tdiv toEx.pot (active_player_count toEx : Int))
          + (if j = toEx.players.findIdx (fun q => !q.folded) ∧
                0 < toEx.pot - Int.tdiv toEx.pot (active_player_count toEx : Int) *
                  (active_player_count toEx : Int)
             then toEx.pot - Int.tdiv toEx.pot (active_player_count toEx : Int) *
                  (active_player_count toEx : Int)
             else 0) })) ∧
    process_timeout 8 toEx = .error .TimeoutNotReached :=
  ⟨(committee_timeout_emergency_refund 20 toEx (by decide)).1 (by decide) (by decide),
   (committee_timeout_emergency_refund 8 toEx (by decide)).2 (by decide) (by decide)⟩

end PokerTable

namespace PokerTable

theorem foldl_if_sum (f : PlayerState → Int) :
    ∀ (l : List PlayerState) (c : Int),
      l.foldl (fun a p => if p.folded then a else a + f p) c =
        c + ((l.filter (fun p => !p.folded)).map f).sum := by
  intro l
  induction l with
  | nil => intro c; simp
  | cons p ps ih =>
    intro c
    by_cases hp : p.folded <;>
      simp [List.foldl_cons, hp, ih, List.filter_cons] <;> ring

theorem level_pot_amount_eq (players : List PlayerState) (prev level : Int) :
    level_pot_amount players prev level =
      ((players.filter (fun p => !p.folded)).map
        (fun p => min p.bet_this_round level - min p.bet_this_round prev)).sum := by
  unfold level_pot_amount
  rw [foldl_if_sum]
  ring

theorem remaining_foldl_eq (mx : Int) (l : List PlayerState) :
    ∀ c : Int,
      l.foldl
        (fun a p => if p.folded then a
          else if p.bet_this_round > mx then a + (p.bet_this_round - mx) else a) c =
        c + ((l.filter (fun p => !p.folded)).map
          (fun p => if p.bet_this_round > mx then p.bet_this_round - mx else 0)).sum := by
  induction l with
  | nil => intro c; simp
  | cons p ps ih =>
    intro c
    by_cases hp : p.folded
    · simp [List.foldl_cons, hp, ih, List.filter_cons]
    · by_cases hb : p.bet_this_round > mx <;>
        simp [List.foldl_cons, hp, hb, ih, List.filter_cons] <;> ring

theorem insert_level_chain (b : Int) :
    ∀ (l : List Int) (a : Int), a ≤ b →
      List.Chain (· ≤ ·) a l → List.Chain (· ≤ ·) a (insert_level b l) := by
  intro l
  induction l with
  | nil =>
    intro a hab _
    exact List.Chain.cons hab List.Chain.nil
  | cons k ks ih =>
    intro a hab hch
    rcases List.chain_cons.1 hch with ⟨hak, hch'⟩
    simp only [insert_level]
    by_cases h1 : b ≤ k
    · by_cases h2 : b < k
      · rw [if_pos h1, if_pos h2]
        exact List.Chain.cons hab (List.Chain.cons (le_of_lt h2) hch')
      · rw [if_pos h1, if_neg h2]
        exact hch
    · rw [if_neg h1]
      exact List.Chain.cons hak (ih k (le_of_not_le h1) hch')

theorem all_in_levels_chain (t : TableState) :
    List.Chain (· ≤ ·) 0 (all_in_levels t) := by
  unfold all_in_levels
  have key : ∀ (l : List PlayerState) (acc : List Int),
      List.Chain (· ≤ ·) 0 acc →
      List.Chain (· ≤ ·) 0 (l.foldl
        (fun acc p =>
          if p.all_in && p.bet_this_round > 0 then insert_level p.bet_this_round acc
          else acc) acc) := by
    intro l
    induction l with
    | nil => intro acc hacc; exact hacc
    | cons p ps ih =>
      intro acc hacc
      simp only [List.foldl_cons]
      apply ih
      by_cases hp : p.all_in && p.bet_this_round > 0
      · rw [if_pos hp]
        have hb : (0 : Int) < p.bet_this_round := by
          have hp2 := hp
          rw [Bool.and_eq_true] at hp2
          exact of_decide_eq_true hp2.2
        exact insert_level_chain _ acc 0 (le_of_lt hb) hacc
      · rw [if_neg hp]
        exact hacc
  exact key t.players [] List.Chain.nil

theorem level_pots_sum (players : List PlayerState) :
    ∀ (levels : List Int) (prev : Int), List.Chain (· ≤ ·) prev levels →
      sum_amounts (level_pots players prev levels) =
        ((players.filter (fun p => !p.folded)).map
          (fun p => min p.bet_this_round (levels.getLastD prev) -
                    min p.bet_this_round prev)).sum := by
  intro levels
  induction levels with
  | nil =>
    intro prev _
    simp [level_pots, sum_amounts, List.getLastD]
  | cons level rest ih =>
    intro prev hch
    rcases List.chain_cons.1 hch with ⟨hpl, hch'⟩
    have hamt_eq := level_pot_amount_eq players prev level
    have hamt : 0 ≤ level_pot_amount players prev level := by
      rw [hamt_eq]
      refine List.sum_nonneg ?_
      intro x hx
      rcases List.mem_map.1 hx with ⟨p, _, rfl⟩
      have : min p.bet_this_round prev ≤ min p.bet_this_round level :=
        min_le_min (le_refl _) hpl
      omega
    have hrec := ih level hch'
    have hlast : (level :: rest).getLastD prev = rest.getLastD level := by
      cases rest <;> simp [List.getLastD]
    simp only [level_pots]
    by_cases hgt : level_pot_amount players prev level > 0
    · rw [if_pos hgt]
      have hsa : sum_amounts
          ([(⟨level_pot_amount players prev level,
              level_eligible players level⟩ : SidePot)] ++
            level_pots players level rest) =
          level_pot_amount players prev level +
            sum_amounts (level_pots players level rest) := by
        simp [sum_amounts]
      rw [hsa, hrec, hamt_eq, hlast, ← List.sum_map_add]
      refine congrArg List.sum (List.map_congr_left ?_)
      intro p _
      omega
    · rw [if_neg hgt]
      have h0 : level_pot_amount players prev level = 0 := le_antisymm (not_lt.1 hgt) hamt
      have hz : ((players.filter (fun p => !p.folded)).map
          (fun p => min p.bet_this_round level - min p.bet_this_round prev)).sum = 0 :=
        hamt_eq.symm.trans h0
      rw [List.nil_append, hrec, hlast]
      have hsplit : ((players.filter (fun p => !p.folded)).map
          (fun p => min p.bet_this_round (rest.getLastD level) -
                    min p.bet_this_round prev)).sum =
          ((players.filter (fun p => !p.folded)).map
            (fun p => min p.bet_this_round (rest.getLastD level) -
                      min p.bet_this_round level)).sum +
          ((players.filter (fun p => !p.folded)).map
            (fun p => min p.bet_this_round level - min p.bet_this_round prev)).sum := by
        rw [← List.sum_map_add]
        refine congrArg List.sum (List.map_congr_left ?_)
        intro p _
        omega
      rw [hsplit, hz, add_zero]

theorem level_pots_eligible (players : List PlayerState) :
    ∀ (levels : List Int) (prev : Int) (sp : SidePot),
      sp ∈ level_pots players prev levels →
      ∃ level ∈ levels, sp.eligible_players = level_eligible players level := by
  intro levels
  induction levels with
  | nil => intro prev sp hsp; simp [level_pots] at hsp
  | cons level rest ih =>
    intro prev sp hsp
    simp only [level_pots] at hsp
    rcases List.mem_append.1 hsp with hl | hr
    · by_cases hgt : level_pot_amount players prev level > 0
      · rw [if_pos hgt] at hl
        rcases List.mem_singleton.1 hl with rfl
        exact ⟨level, List.mem_cons_self _ _, rfl⟩
      · rw [if_neg hgt] at hl
        simp at hl
    · rcases ih level sp hr with ⟨lv, hlv, helig⟩
      exact ⟨lv, List.mem_cons_of_mem _ hlv, helig⟩

theorem sum_amounts_append (a b : List SidePot) :
    sum_amounts (a ++ b) = sum_amounts a + sum_amounts b := by
  simp [sum_amounts]

theorem side_pots_excess_nonneg (mx : Int) (t : TableState) :
    0 ≤ ((t.players.filter (fun p => !p.folded)).map
      (fun p => if p.bet_this_round > mx then p.bet_this_round - mx else 0)).sum := by
  refine List.sum_nonneg ?_
  intro x hx
  rcases List.mem_map.1 hx with ⟨p, _, rfl⟩
  by_cases hb : p.bet_this_round > mx <;> simp [hb] <;> omega

theorem ite_pos_collapse (x : Int) (h : 0 ≤ x) : (if x > 0 then x else 0) = x := by
  by_cases hx : x > 0 <;> simp [hx] <;> omega

/-- C3: Side-pot conservation and eligibility of `calculate_side_pots`
(`poker-table/src/pot.rs`), for non-negative current-round bets.  Without
all-in levels the whole `pot` goes to one pot for the non-folded players.
With all-in levels the pot amounts sum to the total of the NON-FOLDED
players' current-round bets (folded contributions and earlier streets are
dropped, so this is not `t.pot` in general — see the counterexample); each
level pot is eligible exactly to the non-folded players with
`bet_this_round ≥ level`, and the excess pot exactly to those with
`bet_this_round >` the highest all-in level. -/
theorem side_pots_conservation_and_eligibility (t : TableState)
    (hnn : ∀ p ∈ t.players, 0 ≤ p.bet_this_round) :
    (all_in_levels t = [] →
      calculate_side_pots t =
        [⟨t.pot, (t.players.filter (fun p => !p.folded)).map (·.seat_index)⟩]) ∧
    (all_in_levels t ≠ [] →
      sum_amounts (calculate_side_pots t) = total_active_bets t ∧
      ∀ sp ∈ calculate_side_pots t,
        (∃ level ∈ all_in_levels t,
          sp.eligible_players = (t.players.filter
            (fun p => !p.folded && p.bet_this_round ≥ level)).map (·.seat_index)) ∨
        sp.eligible_players = (t.players.filter
          (fun p => !p.folded && p.bet_this_round > (all_in_levels t).getLastD 0)).map
            (·.seat_index)) := by
  constructor
  · intro h
    simp only [calculate_side_pots, h]
  · intro hne
    rcases hlv : all_in_levels t with _ | ⟨L, Ls⟩
    · exact absurd hlv hne
    have hch : List.Chain (· ≤ ·) 0 (L :: Ls) := by
      have hc := all_in_levels_chain t
      rwa [hlv] at hc
    simp only [calculate_side_pots, hlv]
    rw [remaining_foldl_eq, zero_add]
    constructor
    · rw [sum_amounts_append, apply_ite sum_amounts,
        level_pots_sum t.players (L :: Ls) 0 hch]
      simp only [sum_amounts, List.map_cons, List.map_nil, List.sum_cons, List.sum_nil,
        add_zero]
      rw [ite_pos_collapse _ (side_pots_excess_nonneg _ t)]
      unfold total_active_bets
      rw [← List.sum_map_add]
      refine congrArg List.sum (List.map_congr_left ?_)
      intro p hp
      have h0 := hnn p (List.mem_filter.1 hp).1
      by_cases hb : p.bet_this_round > (L :: Ls).getLastD 0 <;> simp [hb] <;> omega
    · intro sp hsp
      rcases List.mem_append.1 hsp with hl | hr
      · left
        rcases level_pots_eligible t.players (L :: Ls) 0 sp hl with ⟨lv, hlv2, he⟩
        unfold level_eligible at he
        exact ⟨lv, hlv2, he⟩
      · right
        split at hr
        · rcases List.mem_singleton.1 hr with rfl
          rfl
        · simp at hr

/-- C3 counterexample: at `spEx` the all-in branch of `calculate_side_pots`
drops the folded player's 10 chips — the pot amounts sum to 40 while the
contributed pot (and the sum of all bets) is 50. -/
theorem side_pots_not_conserving :
    sum_amounts (calculate_side_pots spEx) = 40 ∧ spEx.pot = 50 ∧
      total_bets spEx = 50 := by decide

/-- Witness for C3 at `spEx`: bets are non-negative and the pot amounts sum
to the non-folded players' current-round bets. -/
theorem side_pots_amended_witness :
    (∀ p ∈ spEx.players, 0 ≤ p.bet_this_round) ∧
    sum_amounts (calculate_side_pots spEx) = total_active_bets spEx :=
  ⟨by decide,
   ((side_pots_conservation_and_eligibility spEx (by decide)).2 (by decide)).1⟩

end PokerTable

namespace PokerTable

theorem next_active_live (players : List PlayerState) :
    ∀ (fuel start : Nat), start < players.length →
      (∃ k, k < fuel ∧ ∃ p, players[(start + k) % players.length]? = some p ∧
        p.folded = false ∧ p.all_in = false) →
      ∃ p, players[next_active_from players fuel start]? = some p ∧
        p.folded = false ∧ p.all_in = false := by
  intro fuel
  induction fuel with
  | zero =>
    intro start _ h
    rcases h with ⟨k, hk, _⟩
    omega
  | succ fuel ih =>
    intro start hst h
    simp only [next_active_from]
    cases hps : players[start]? with
    | none =>
      exfalso
      rw [List.getElem?_eq_getElem hst] at hps
      cases hps
    | some p =>
      dsimp only
      by_cases hlive : (p.folded || p.all_in) = true
      · rw [if_pos hlive]
        apply ih
        · exact Nat.mod_lt _ (by omega)
        · rcases h with ⟨k, hk, p', hp', hf, ha⟩
          rcases Nat.eq_zero_or_pos k with hk0 | hkpos
          · exfalso
            subst hk0
            rw [Nat.add_zero, Nat.mod_eq_of_lt hst, hps] at hp'
            cases hp'
            simp_all
          · refine ⟨k - 1, by omega, p', ?_, hf, ha⟩
            have hidx : ((start + 1) % players.length + (k - 1)) % players.length =
                (start + k) % players.length := by
              rw [Nat.mod_add_mod]
              congr 1
              omega
            rw [hidx]
            exact hp'
      · rw [if_neg hlive]
        rw [Bool.or_eq_true] at hlive
        push_neg at hlive
        exact ⟨p, hps, by simpa using hlive.1, by simpa using hlive.2⟩

theorem next_active_live_of_exists (players : List PlayerState) (start : Nat)
    (hst : start < players.length)
    (j : Nat) (p : PlayerState) (hj : players[j]? = some p)
    (hf : p.folded = false) (ha : p.all_in = false) :
    ∃ q, players[next_active_from players players.length start]? = some q ∧
      q.folded = false ∧ q.all_in = false := by
  apply next_active_live players players.length start hst
  have hjlt : j < players.length := (List.getElem?_eq_some_iff.1 hj).1
  refine ⟨(j + players.length - start) % players.length, Nat.mod_lt _ (by omega), p, ?_, hf, ha⟩
  have hidx : (start + (j + players.length - start) % players.length) % players.length = j := by
    rw [Nat.add_mod_mod]
    have hs : start + (j + players.length - start) = j + players.length := by omega
    rw [hs, Nat.add_mod_right, Nat.mod_eq_of_lt hjlt]
  rw [hidx]
  exact hj

theorem exists_live_of_not_complete (t : TableState) (h : is_round_complete t = false) :
    ∃ (j : Nat) (p : PlayerState),
      t.players[j]? = some p ∧ p.folded = false ∧ p.all_in = false := by
  have h2 : ¬ is_round_complete t = true := by simp [h]
  simp only [is_round_complete, List.all_eq_true] at h2
  push_neg at h2
  rcases h2 with ⟨p, hp, hnp⟩
  have hfold : p.folded = false := by
    cases hl : p.folded
    · rfl
    · exact absurd (by simp [hl]) hnp
  have hall : p.all_in = false := by
    cases hl : p.all_in
    · rfl
    · exact absurd (by simp [hl]) hnp
  rcases List.mem_iff_getElem?.1 hp with ⟨j, hj⟩
  exact ⟨j, p, hj, hfold, hall⟩

theorem last_player_standing_isSome (t : TableState) (h : active_player_count t = 1) :
    (last_player_standing t).isSome := by
  unfold last_player_standing
  rw [if_neg (by simp [h])]
  have hex : ∃ x ∈ t.players, (!x.folded) = true := by
    have hlen : (t.players.filter (fun p => !p.folded)).length = 1 := h
    cases hf : t.players.filter (fun p => !p.folded) with
    | nil => rw [hf] at hlen; simp at hlen
    | cons x xs =>
      have hx : x ∈ t.players.filter (fun p => !p.folded) := by
        rw [hf]; exact List.mem_cons_self _ _
      rcases List.mem_filter.1 hx with ⟨hmem, hpred⟩
      exact ⟨x, hmem, hpred⟩
  have hfind : (t.players.find? (fun p => !p.folded)).isSome := by
    rw [List.find?_isSome]
    exact hex
  cases hfo : t.players.find? (fun p => !p.folded) with
  | none => rw [hfo] at hfind; simp at hfind
  | some y => rfl

theorem settle_fold_win_phase (cl : Nat) (t t' : TableState)
    (h : settle_fold_win cl t = .ok t') (hc : active_player_count t = 1) :
    t'.phase = .Settlement := by
  have hs := last_player_standing_isSome t hc
  unfold settle_fold_win at h
  cases hl : last_player_standing t with
  | none => rw [hl] at hs; simp at hs
  | some ws =>
    rw [hl] at h
    dsimp only at h
    cases hw : t.players[ws]? with
    | none =>
      rw [hw] at h
      simp [okOr, Bind.bind, Except.bind] at h
    | some w =>
      rw [hw] at h
      simp only [okOr, Bind.bind, Except.bind, Except.ok.injEq] at h
      rw [← h]

theorem advance_to_next_phase_not_betting (cl : Nat) (t t' : TableState)
    (h : advance_to_next_phase cl t = .ok t') :
    t'.phase ≠ .Preflop ∧ t'.phase ≠ .Flop ∧ t'.phase ≠ .Turn ∧ t'.phase ≠ .River := by
  unfold advance_to_next_phase at h
  by_cases hc : active_player_count t = 1
  · rw [if_pos hc] at h
    have hph := settle_fold_win_phase cl t t' h hc
    rw [hph]
    refine ⟨?_, ?_, ?_, ?_⟩ <;> intro hx <;> cases hx
  · rw [if_neg hc] at h
    cases hph : t.phase <;> rw [hph] at h <;>
      simp only [Except.ok.injEq] at h <;> rw [← h] <;>
      refine ⟨?_, ?_, ?_, ?_⟩ <;> intro hx <;> simp_all

theorem advance_turn_validity (cl : Nat) (s t' : TableState)
    (h : advance_turn cl s = .ok t')
    (hph : t'.phase = .Preflop ∨ t'.phase = .Flop ∨ t'.phase = .Turn ∨ t'.phase = .River) :
    ∃ p, t'.players[t'.current_turn]? = some p ∧ p.folded = false ∧ p.all_in = false := by
  unfold advance_turn at h
  dsimp only at h
  by_cases hn : s.players.length = 0
  · rw [if_pos hn] at h
    cases h
  · rw [if_neg hn] at h
    by_cases hrc : is_round_complete s = true
    · rw [if_pos hrc] at h
      have := advance_to_next_phase_not_betting cl s t' h
      rcases hph with hx | hx | hx | hx <;> simp_all
    · rw [if_neg hrc] at h
      simp only [Except.ok.injEq] at h
      rcases exists_live_of_not_complete s (by simpa using hrc) with ⟨j, p, hj, hf, ha⟩
      have hlive := next_active_live_of_exists s.players
        ((s.current_turn + 1) % s.players.length)
        (Nat.mod_lt _ (by omega)) j p hj hf ha
      rw [← h]
      exact hlive

theorem bind_ok_inv {α β : Type} (x : Except Err α) (f : α → Except Err β) (b : β)
    (h : Bind.bind x f = Except.ok b) : ∃ a, x = Except.ok a ∧ f a = Except.ok b := by
  cases x with
  | error e => simp [Bind.bind, Except.bind] at h
  | ok a =>
    refine ⟨a, rfl, ?_⟩
    simpa [Bind.bind, Except.bind] using h

/-- C4: turn validity after `process_action`.  Whenever `process_action`
succeeds and leaves the table in a betting phase, the resulting
`current_turn` indexes a seated player who is neither folded nor all-in
(the scan of `advance_turn` always lands on a live seat because an
incomplete round has one).  The claim's further assertion that this also
holds right after `commit_deal` is false: `commit_deal` sets
`current_turn := (dealer_seat + 3) % num_players` without checking the
seat, and a blind-shorted all-in player can hold it — see the
counterexample. -/
theorem process_action_turn_validity (cl : Nat) (t t' : TableState) (player : Nat)
    (a : Action)
    (h : process_action cl t player a = .ok t')
    (hph : t'.phase = .Preflop ∨ t'.phase = .Flop ∨ t'.phase = .Turn ∨ t'.phase = .River) :
    ∃ p, t'.players[t'.current_turn]? = some p ∧ p.folded = false ∧ p.all_in = false := by
  unfold process_action at h
  rcases bind_ok_inv _ _ _ h with ⟨seat, hfs, h1⟩
  by_cases hseat : seat ≠ t.current_turn
  · rw [if_pos hseat] at h1
    cases h1
  · rw [if_neg hseat] at h1
    rcases bind_ok_inv _ _ _ h1 with ⟨p, hokp, h2⟩
    by_cases hpf : p.folded = true
    · rw [if_pos hpf] at h2
      cases h2
    · rw [if_neg hpf] at h2
      by_cases hpa : p.all_in = true
      · rw [if_pos hpa] at h2
        cases h2
      · rw [if_neg hpa] at h2
        rcases bind_ok_inv _ _ _ h2 with ⟨tp, hin, hcont⟩
        dsimp only at hcont
        by_cases htp : tp.2 = true
        · rw [if_pos htp] at hcont
          injection hcont with hh
          subst hh
          cases a with
          | Fold =>
            dsimp only at hin
            split at hin
            · rename_i hc
              rcases bind_ok_inv _ _ _ hin with ⟨ts, hsw, hp2⟩
              simp only [Pure.pure, Except.pure, Except.ok.injEq] at hp2
              cases hp2
              have hset := settle_fold_win_phase cl _ ts hsw hc
              rcases hph with hx | hx | hx | hx <;> simp_all
            · cases hin
              simp at htp
          | Check =>
            dsimp only at hin
            split at hin
            · cases hin
            · cases hin
              simp at htp
          | Call =>
            dsimp only at hin
            split at hin
            · cases hin
            · cases hin
              simp at htp
          | Bet =>
            dsimp only at hin
            split at hin
            · cases hin
            · split at hin
              · cases hin
              · split at hin
                · cases hin
                · cases hin
                  simp at htp
          | Raise =>
            dsimp only at hin
            split at hin
            · cases hin
            · split at hin
              · cases hin
              · cases hin
                simp at htp
          | AllIn =>
            dsimp only at hin
            cases hin
            simp at htp
        · rw [if_neg htp] at hcont
          exact advance_turn_validity cl _ t' hcont hph

/-- C4 counterexample: a reachable table (1-chip buy-in forced all-in by the
small blind, then `commit_deal`) that sits in the Preflop betting phase with
`current_turn` on the all-in seat. -/
theorem turn_given_to_all_in_player :
    Reachable exT0 sbT4 ∧ sbT4.phase = .Preflop ∧
      sbT4.players[sbT4.current_turn]?.map (·.all_in) = some true := by
  refine ⟨?_, by decide, by decide⟩
  have s1 : ContractStep exT0 sbT1 := ContractStep.join 301 1 0 (by decide)
  have s2 : ContractStep sbT1 sbT2 := ContractStep.join 302 500 1 (by decide)
  have s3 : ContractStep sbT2 sbT3 :=
    ContractStep.hand (HandStep.startHand 5 (by decide))
  have s4 : ContractStep sbT3 sbT4 :=
    ContractStep.hand (HandStep.commitDeal 6 77 99 [11, 12] [0, 1] true (by decide))
  exact Relation.ReflTransGen.tail
    (Relation.ReflTransGen.tail
      (Relation.ReflTransGen.tail
        (Relation.ReflTransGen.tail Relation.ReflTransGen.refl s1) s2) s3) s4

/-- Witness for C4: the small blind raises preflop at the scenario table;
the action succeeds, stays in Preflop, and the turn lands on the live big
blind. -/
theorem process_action_turn_witness :
    paT.phase = .Preflop ∧
    ∃ p, paT.players[paT.current_turn]? = some p ∧
      p.folded = false ∧ p.all_in = false :=
  ⟨by decide,
   process_action_turn_validity 7 exT4 paT 201 (.Raise 10) (by decide)
     (Or.inl (by decide))⟩

end PokerTable

namespace PokerTable

theorem mem_of_getElem' {α : Type} (l : List α) (i : Nat) (a : α) (h : l[i]? = some a) :
    a ∈ l := by
  have hlt : i < l.length := (List.getElem?_eq_some_iff.1 h).1
  have he : l[i] = a := (List.getElem?_eq_some_iff.1 h).2
  exact he ▸ List.getElem_mem hlt

theorem sum_map_set {α : Type} (f : α → Int) :
    ∀ (l : List α) (j : Nat) (x a : α), l[j]? = some a →
      ((l.set j x).map f).sum = (l.map f).sum + (f x - f a) := by
  intro l
  induction l with
  | nil => intro j x a h; simp at h
  | cons b bs ih =>
    intro j x a h
    cases j with
    | zero =>
      simp only [List.getElem?_cons_zero, Option.some.injEq] at h
      subst h
      rw [List.set_cons_zero]
      simp only [List.map_cons, List.sum_cons]
      ring
    | succ j =>
      simp only [List.getElem?_cons_succ] at h
      rw [List.set_cons_succ]
      simp only [List.map_cons, List.sum_cons]
      rw [ih j x a h]
      ring

theorem sum_stack_map_preserve (g : PlayerState → PlayerState)
    (hg : ∀ p, (g p).stack = p.stack) (l : List PlayerState) :
    ((l.map g).map (·.stack)).sum = (l.map (·.stack)).sum := by
  induction l with
  | nil => rfl
  | cons p ps ih => simp only [List.map_cons, List.sum_cons, hg p, ih]

theorem refund_map_sum (s : Int) (l : List PlayerState) :
    (((l.map (fun p : PlayerState =>
        if !p.folded then { p with stack := p.stack + s } else p)).map (·.stack)).sum) =
      (l.map (·.stack)).sum + s * ((l.filter (fun p => !p.folded)).length : Int) := by
  induction l with
  | nil => simp
  | cons p ps ih =>
    by_cases hp : p.folded
    · have hh : (if (!p.folded) = true then
          ({ p with stack := p.stack + s } : PlayerState) else p) = p := by simp [hp]
      have hf : (p :: ps).filter (fun p => !p.folded) = ps.filter (fun p => !p.folded) := by
        simp [List.filter_cons, hp]
      simp only [List.map_cons, hh, List.sum_cons, hf, ih]
      ring
    · have hh : (if (!p.folded) = true then
          ({ p with stack := p.stack + s } : PlayerState) else p) =
          { p with stack := p.stack + s } := by simp [hp]
      have hf : (p :: ps).filter (fun p => !p.folded) =
          p :: ps.filter (fun p => !p.folded) := by
        simp [List.filter_cons, hp]
      simp only [List.map_cons, hh, List.sum_cons, hf, ih, List.length_cons]
      push_cast
      ring

theorem add_first_sum (r : Int) :
    ∀ l : List PlayerState,
      ((add_to_first_active r l).map (·.stack)).sum =
        (l.map (·.stack)).sum + (if l.any (fun p => !p.folded) then r else 0) := by
  intro l
  induction l with
  | nil =>
    have hred : add_to_first_active r ([] : List PlayerState) = [] := rfl
    simp [hred]
  | cons p ps ih =>
    by_cases hp : p.folded
    · have hred : add_to_first_active r (p :: ps) = p :: add_to_first_active r ps := by
        simp [add_to_first_active, hp]
      have hany : (p :: ps).any (fun p => !p.folded) = ps.any (fun p => !p.folded) := by
        simp [List.any_cons, hp]
      rw [hred]
      simp only [List.map_cons, List.sum_cons, ih, hany]
      ring
    · have hred : add_to_first_active r (p :: ps) =
          { p with stack := p.stack + r } :: ps := by
        simp [add_to_first_active, hp]
      have hany : ((p :: ps).any (fun p => !p.folded)) = true := by
        simp [List.any_cons, hp]
      rw [hred, if_pos hany]
      simp only [List.map_cons, List.sum_cons]
      ring

theorem add_first_stack_nonneg (r : Int) (hr : 0 ≤ r) :
    ∀ l : List PlayerState, (∀ p ∈ l, 0 ≤ p.stack) →
      ∀ q ∈ add_to_first_active r l, 0 ≤ q.stack := by
  intro l
  induction l with
  | nil => intro _ q hq; simp [add_to_first_active] at hq
  | cons p ps ih =>
    intro hall q hq
    by_cases hp : p.folded
    · have hred : add_to_first_active r (p :: ps) = p :: add_to_first_active r ps := by
        simp [add_to_first_active, hp]
      rw [hred] at hq
      rcases List.mem_cons.1 hq with rfl | hq
      · exact hall q (List.mem_cons_self _ _)
      · exact ih (fun x hx => hall x (List.mem_cons_of_mem _ hx)) q hq
    · have hred : add_to_first_active r (p :: ps) =
          { p with stack := p.stack + r } :: ps := by
        simp [add_to_first_active, hp]
      rw [hred] at hq
      rcases List.mem_cons.1 hq with rfl | hq
      · exact add_nonneg (hall p (List.mem_cons_self _ _)) hr
      · exact hall q (List.mem_cons_of_mem _ hq)

theorem foldl_max_init_le :
    ∀ (l : List PlayerState) (m : Int),
      m ≤ l.foldl (fun m p => if p.bet_this_round > m then p.bet_this_round else m) m := by
  intro l
  induction l with
  | nil => intro m; exact le_refl m
  | cons p ps ih =>
    intro m
    simp only [List.foldl_cons]
    refine le_trans ?_ (ih _)
    by_cases h : p.bet_this_round > m <;> simp [h] <;> omega

theorem foldl_max_mem_le :
    ∀ (l : List PlayerState) (m : Int) (q : PlayerState), q ∈ l →
      q.bet_this_round ≤
        l.foldl (fun m p => if p.bet_this_round > m then p.bet_this_round else m) m := by
  intro l
  induction l with
  | nil => intro m q hq; cases hq
  | cons p ps ih =>
    intro m q hq
    simp only [List.foldl_cons]
    rcases List.mem_cons.1 hq with rfl | hq
    · refine le_trans ?_ (foldl_max_init_le ps _)
      by_cases h : q.bet_this_round > m <;> simp [h] <;> omega
    · exact ih _ q hq

theorem le_max_bet (t : TableState) (q : PlayerState) (hq : q ∈ t.players) :
    q.bet_this_round ≤ max_bet_this_round t := foldl_max_mem_le _ 0 q hq

theorem max_bet_nonneg (t : TableState) : 0 ≤ max_bet_this_round t :=
  foldl_max_init_le _ 0

theorem okOr_ok_inv {α : Type} (o : Option α) (e : Err) (a : α)
    (h : okOr o e = .ok a) : o = some a := by
  cases ho : o with
  | none => rw [ho] at h; cases h
  | some b => rw [ho] at h; cases h; rfl

theorem post_blind_chip (t : TableState) (seat : Nat) (amount : Int) (t' : TableState)
    (h : post_blind t seat amount = .ok t') (hinv : ChipInv t) (ha : 0 ≤ amount) :
    chip_total t' = chip_total t ∧ ChipInv t' := by
  obtain ⟨hpot, hst, hsb, hbb⟩ := hinv
  unfold post_blind at h
  rcases bind_ok_inv _ _ _ h with ⟨p, hok, h2⟩
  have hp : t.players[seat]? = some p := okOr_ok_inv _ _ _ hok
  dsimp only at h2
  simp only [Except.ok.injEq] at h2
  have hs0 : (if p.stack < amount then ({ p with all_in := true } : PlayerState)
      else p).stack = p.stack := by
    by_cases hl : p.stack < amount <;> simp [hl]
  have hmem := mem_of_getElem' _ _ _ hp
  have hps0 : 0 ≤ p.stack := hst p hmem
  have hA : 0 ≤ (if p.stack < amount then p.stack else amount) := by
    by_cases hl : p.stack < amount <;> simp [hl] <;> omega
  subst h2
  constructor
  · unfold chip_total
    dsimp only
    rw [sum_map_set (·.stack) t.players seat _ p hp]
    simp only [hs0]
    by_cases hl : p.stack < amount <;> simp [hl] <;> ring
  · refine ⟨?_, ?_, hsb, hbb⟩
    · dsimp only
      simp only [hs0]
      omega
    · intro q hq
      dsimp only at hq
      rcases List.mem_or_eq_of_mem_set hq with hq | rfl
      · exact hst q hq
      · simp only [hs0]
        by_cases hl : p.stack < amount <;> simp [hl] <;> omega

theorem start_new_hand_chip (cl : Nat) (t t' : TableState)
    (h : start_new_hand cl t = .ok t') (hinv : ChipInv t) :
    chip_total t' = chip_total t ∧ ChipInv t' := by
  obtain ⟨hpot, hst, hsb, hbb⟩ := hinv
  unfold start_new_hand at h
  dsimp only at h
  by_cases hn : t.players.length < 2
  · rw [if_pos hn] at h
    cases h
  · rw [if_neg hn] at h
    rcases bind_ok_inv _ _ _ h with ⟨ta, hpb1, h2⟩
    rcases bind_ok_inv _ _ _ h2 with ⟨tb, hpb2, h3⟩
    simp only [Except.ok.injEq] at h3
    subst h3
    obtain ⟨hc1, hinv1⟩ := post_blind_chip _ _ _ _ hpb1
      ⟨hpot, fun q hq => by
        rcases List.mem_map.1 hq with ⟨p0, hp0, rfl⟩
        exact hst p0 hp0, hsb, hbb⟩ hsb
    obtain ⟨hc2, hinv2⟩ := post_blind_chip _ _ _ _ hpb2 hinv1 hinv1.2.2.2
    constructor
    · show chip_total tb = chip_total t
      rw [hc2, hc1]
      unfold chip_total
      dsimp only
      rw [sum_stack_map_preserve
        (fun p => { p with folded := false, all_in := false, bet_this_round := 0 })
        (fun p => rfl) t.players]
    · exact hinv2

theorem settle_fold_win_chip (cl : Nat) (t t' : TableState)
    (h : settle_fold_win cl t = .ok t') (hinv : ChipInv t) :
    chip_total t' = chip_total t ∧ ChipInv t' := by
  obtain ⟨hpot, hst, hsb, hbb⟩ := hinv
  unfold settle_fold_win at h
  cases hl : last_player_standing t with
  | none =>
    rw [hl] at h
    dsimp only at h
    cases h
    exact ⟨rfl, hpot, hst, hsb, hbb⟩
  | some ws =>
    rw [hl] at h
    dsimp only at h
    rcases bind_ok_inv _ _ _ h with ⟨w, hok, h2⟩
    have hw : t.players[ws]? = some w := okOr_ok_inv _ _ _ hok
    simp only [Except.ok.injEq] at h2
    subst h2
    constructor
    · unfold chip_total
      dsimp only
      rw [sum_map_set (·.stack) t.players ws _ w hw]
      dsimp only
      ring
    · refine ⟨le_refl 0, ?_, hsb, hbb⟩
      intro q hq
      dsimp only at hq
      rcases List.mem_or_eq_of_mem_set hq with hq | rfl
      · exact hst q hq
      · exact add_nonneg (hst w (mem_of_getElem' _ _ _ hw)) hpot

theorem settle_showdown_chip (cl : Nat) (t t' : TableState)
    (hole_cards : List (Nat × Nat))
    (h : settle_showdown cl t hole_cards = .ok t') (hinv : ChipInv t) :
    chip_total t' = chip_total t ∧ ChipInv t' := by
  obtain ⟨hpot, hst, hsb, hbb⟩ := hinv
  unfold settle_showdown at h
  by_cases hb : t.board_cards.length ≠ 5
  · rw [if_pos hb] at h
    cases h
  · rw [if_neg hb] at h
    rcases bind_ok_inv _ _ _ h with ⟨b0, _, h1⟩
    rcases bind_ok_inv _ _ _ h1 with ⟨b1, _, h2⟩
    rcases bind_ok_inv _ _ _ h2 with ⟨b2, _, h3⟩
    rcases bind_ok_inv _ _ _ h3 with ⟨b3, _, h4⟩
    rcases bind_ok_inv _ _ _ h4 with ⟨b4, _, h5⟩
    rcases bind_ok_inv _ _ _ h5 with ⟨ws, _, h6⟩
    dsimp only at h6
    rcases bind_ok_inv _ _ _ h6 with ⟨w, hok, h7⟩
    have hw : t.players[ws]? = some w := okOr_ok_inv _ _ _ hok
    simp only [Except.ok.injEq] at h7
    subst h7
    constructor
    · unfold chip_total
      dsimp only
      rw [sum_map_set (·.stack) t.players ws _ w hw]
      dsimp only
      ring
    · refine ⟨le_refl 0, ?_, hsb, hbb⟩
      intro q hq
      dsimp only at hq
      rcases List.mem_or_eq_of_mem_set hq with hq | rfl
      · exact hst q hq
      · exact add_nonneg (hst w (mem_of_getElem' _ _ _ hw)) hpot

theorem advance_to_next_phase_chip (cl : Nat) (t t' : TableState)
    (h : advance_to_next_phase cl t = .ok t') (hinv : ChipInv t) :
    chip_total t' = chip_total t ∧ ChipInv t' := by
  unfold advance_to_next_phase at h
  by_cases hc : active_player_count t = 1
  · rw [if_pos hc] at h
    exact settle_fold_win_chip cl t t' h hinv
  · rw [if_neg hc] at h
    obtain ⟨hpot, hst, hsb, hbb⟩ := hinv
    cases hph : t.phase <;> rw [hph] at h <;> dsimp only at h <;>
      simp only [Except.ok.injEq] at h <;> subst h <;>
      exact ⟨rfl, hpot, hst, hsb, hbb⟩

theorem reset_round_chip (cl : Nat) (t t' : TableState)
    (h : reset_round cl t = .ok t') (hinv : ChipInv t) :
    chip_total t' = chip_total t ∧ ChipInv t' := by
  obtain ⟨hpot, hst, hsb, hbb⟩ := hinv
  unfold reset_round at h
  dsimp only at h
  have hinvm : ChipInv { t with
      players := t.players.map (fun p => { p with bet_this_round := 0 }) } :=
    ⟨hpot, fun q hq => by
      rcases List.mem_map.1 hq with ⟨p0, hp0, rfl⟩
      exact hst p0 hp0, hsb, hbb⟩
  have hcm : chip_total { t with
      players := t.players.map (fun p => { p with bet_this_round := 0 }) } =
      chip_total t := by
    unfold chip_total
    dsimp only
    rw [sum_stack_map_preserve (fun p => { p with bet_this_round := 0 })
      (fun p => rfl) t.players]
  by_cases hz : (t.players.map (fun p => { p with bet_this_round := 0 })).length = 0
  · rw [if_pos hz] at h
    cases h
  · rw [if_neg hz] at h
    split at h
    · simp only [Except.ok.injEq] at h
      subst h
      exact ⟨hcm, hinvm⟩
    · obtain ⟨hc2, hinv2⟩ := advance_to_next_phase_chip cl _ t' h hinvm
      exact ⟨hc2.trans hcm, hinv2⟩

theorem advance_turn_chip (cl : Nat) (t t' : TableState)
    (h : advance_turn cl t = .ok t') (hinv : ChipInv t) :
    chip_total t' = chip_total t ∧ ChipInv t' := by
  unfold advance_turn at h
  dsimp only at h
  by_cases hn : t.players.length = 0
  · rw [if_pos hn] at h
    cases h
  · rw [if_neg hn] at h
    by_cases hrc : is_round_complete t = true
    · rw [if_pos hrc] at h
      exact advance_to_next_phase_chip cl t t' h hinv
    · rw [if_neg hrc] at h
      simp only [Except.ok.injEq] at h
      subst h
      obtain ⟨hpot, hst, hsb, hbb⟩ := hinv
      exact ⟨rfl, hpot, hst, hsb, hbb⟩

theorem emergency_refund_chip (t t' : TableState)
    (h : emergency_refund t = .ok t') (hinv : ChipInv t) :
    chip_total t' = chip_total t ∧ ChipInv t' := by
  obtain ⟨hpot, hst, hsb, hbb⟩ := hinv
  unfold emergency_refund at h
  dsimp only at h
  by_cases hact : active_player_count t = 0
  · rw [if_pos hact] at h
    cases h
    exact ⟨rfl, hpot, hst, hsb, hbb⟩
  · rw [if_neg hact] at h
    have hAnn : (0 : Int) ≤ (active_player_count t : Int) := Int.natCast_nonneg _
    have hAne : ((active_player_count t : Int)) ≠ 0 := Int.natCast_ne_zero.2 hact
    have hSnn : 0 ≤ Int.tdiv t.pot (active_player_count t : Int) :=
      Int.tdiv_nonneg hpot hAnn
    have hrem_nn : 0 ≤ t.pot - Int.tdiv t.pot (active_player_count t : Int) *
        (active_player_count t : Int) := by
      rw [Int.tdiv_eq_ediv hpot hAnn]
      have hle := Int.ediv_mul_le t.pot hAne
      linarith
    have hlen : ((t.players.filter (fun p => !p.folded)).length : Int) =
        (active_player_count t : Int) := rfl
    by_cases hrem : t.pot - Int.tdiv t.pot (active_player_count t : Int) *
        (active_player_count t : Int) > 0
    · rw [if_pos hrem] at h
      simp only [Except.ok.injEq] at h
      subst h
      constructor
      · unfold chip_total
        dsimp only
        rw [add_first_sum]
        have hany : ((t.players.map (fun p : PlayerState =>
            if !p.folded then
              { p with
                  stack := p.stack + Int.tdiv t.pot (active_player_count t : Int) }
            else p)).any
            (fun p => !p.folded)) = true := by
          have hex : ∃ x ∈ t.players, (!x.folded) = true := by
            have hlen0 : (t.players.filter (fun p => !p.folded)).length ≠ 0 := hact
            cases hf : t.players.filter (fun p => !p.folded) with
            | nil => rw [hf] at hlen0; simp at hlen0
            | cons x xs =>
              have hx : x ∈ t.players.filter (fun p => !p.folded) := by
                rw [hf]; exact List.mem_cons_self _ _
              rcases List.mem_filter.1 hx with ⟨hmem, hpred⟩
              exact ⟨x, hmem, hpred⟩
          rcases hex with ⟨x, hmem, hpred⟩
          have hel := List.mem_map_of_mem (fun p : PlayerState =>
            if !p.folded then
              { p with
                  stack := p.stack + Int.tdiv t.pot (active_player_count t : Int) }
            else p) hmem
          refine List.any_eq_true.2 ⟨_, hel, ?_⟩
          simp [hpred]
        rw [if_pos hany, refund_map_sum, hlen]
        ring
      · refine ⟨le_refl 0, ?_, hsb, hbb⟩
        intro q hq
        dsimp only at hq
        refine add_first_stack_nonneg _ (le_of_lt hrem) _ ?_ q hq
        intro x hx
        rcases List.mem_map.1 hx with ⟨p0, hp0, rfl⟩
        have h0 := hst p0 hp0
        by_cases hf : p0.folded
        · simpa [hf] using h0
        · simp only [hf, Bool.not_false, if_true]
          have : (0 : Int) ≤ p0.stack + Int.tdiv t.pot (active_player_count t : Int) :=
            add_nonneg h0 hSnn
          simpa using this
    · rw [if_neg hrem] at h
      simp only [Except.ok.injEq] at h
      subst h
      have hrem0 : t.pot - Int.tdiv t.pot (active_player_count t : Int) *
          (active_player_count t : Int) = 0 := le_antisymm (not_lt.1 hrem) hrem_nn
      constructor
      · unfold chip_total
        dsimp only
        rw [refund_map_sum, hlen]
        linarith
      · refine ⟨le_refl 0, ?_, hsb, hbb⟩
        intro q hq
        dsimp only at hq
        rcases List.mem_map.1 hq with ⟨p0, hp0, rfl⟩
        have h0 := hst p0 hp0
        by_cases hf : p0.folded
        · simpa [hf] using h0
        · simp only [hf, Bool.not_false, if_true]
          have : (0 : Int) ≤ p0.stack + Int.tdiv t.pot (active_player_count t : Int) :=
            add_nonneg h0 hSnn
          simpa using this

theorem process_timeout_chip (cl : Nat) (t t' : TableState)
    (h : process_timeout cl t = .ok t') (hinv : ChipInv t) :
    chip_total t' = chip_total t ∧ ChipInv t' := by
  obtain ⟨hpot, hst, hsb, hbb⟩ := hinv
  unfold process_timeout at h
  dsimp only at h
  by_cases he : cl - t.last_action_ledger < t.config.timeout_ledgers
  · rw [if_pos he] at h
    cases h
  · rw [if_neg he] at h
    cases hph : t.phase with
    | Waiting =>
        rw [hph] at h
        dsimp only at h
        cases h
    | Dealing =>
        rw [hph] at h
        dsimp only at h
        obtain ⟨hc, hi⟩ := emergency_refund_chip _ t' h ⟨hpot, hst, hsb, hbb⟩
        exact ⟨hc, hi⟩
    | Preflop =>
        rw [hph] at h
        dsimp only at h
        rcases bind_ok_inv _ _ _ h with ⟨p, hok, h2⟩
        have hw : t.players[t.current_turn]? = some p := okOr_ok_inv _ _ _ hok
        by_cases hlp : (!p.folded && !p.all_in) = true
        · rw [if_pos hlp] at h2
          have hinvset : ChipInv { t with
              players := t.players.set t.current_turn { p with folded := true } } := by
            refine ⟨hpot, ?_, hsb, hbb⟩
            intro q hq
            rcases List.mem_or_eq_of_mem_set hq with hq | rfl
            · exact hst q hq
            · exact hst p (mem_of_getElem' _ _ _ hw)
          have hcset : chip_total { t with
              players := t.players.set t.current_turn { p with folded := true } } =
              chip_total t := by
            unfold chip_total
            dsimp only
            rw [sum_map_set (·.stack) t.players t.current_turn _ p hw]
            dsimp only
            ring
          split at h2
          · obtain ⟨hcs, hinvs⟩ := settle_fold_win_chip cl _ t' h2 hinvset
            exact ⟨hcs.trans hcset, hinvs⟩
          · simp only [Except.ok.injEq] at h2
            subst h2
            exact ⟨hcset, hinvset⟩
        · rw [if_neg hlp] at h2
          cases h2
          exact ⟨rfl, hpot, hst, hsb, hbb⟩
    | DealingFlop =>
        rw [hph] at h
        dsimp only at h
        obtain ⟨hc, hi⟩ := emergency_refund_chip _ t' h ⟨hpot, hst, hsb, hbb⟩
        exact ⟨hc, hi⟩
    | Flop =>
        rw [hph] at h
        dsimp only at h
        rcases bind_ok_inv _ _ _ h with ⟨p, hok, h2⟩
        have hw : t.players[t.current_turn]? = some p := okOr_ok_inv _ _ _ hok
        by_cases hlp : (!p.folded && !p.all_in) = true
        · rw [if_pos hlp] at h2
          have hinvset : ChipInv { t with
              players := t.players.set t.current_turn { p with folded := true } } := by
            refine ⟨hpot, ?_, hsb, hbb⟩
            intro q hq
            rcases List.mem_or_eq_of_mem_set hq with hq | rfl
            · exact hst q hq
            · exact hst p (mem_of_getElem' _ _ _ hw)
          have hcset : chip_total { t with
              players := t.players.set t.current_turn { p with folded := true } } =
              chip_total t := by
            unfold chip_total
            dsimp only
            rw [sum_map_set (·.stack) t.players t.current_turn _ p hw]
            dsimp only
            ring
          split at h2
          · obtain ⟨hcs, hinvs⟩ := settle_fold_win_chip cl _ t' h2 hinvset
            exact ⟨hcs.trans hcset, hinvs⟩
          · simp only [Except.ok.injEq] at h2
            subst h2
            exact ⟨hcset, hinvset⟩
        · rw [if_neg hlp] at h2
          cases h2
          exact ⟨rfl, hpot, hst, hsb, hbb⟩
    | DealingTurn =>
        rw [hph] at h
        dsimp only at h
        obtain ⟨hc, hi⟩ := emergency_refund_chip _ t' h ⟨hpot, hst, hsb, hbb⟩
        exact ⟨hc, hi⟩
    | Turn =>
        rw [hph] at h
        dsimp only at h
        rcases bind_ok_inv _ _ _ h with ⟨p, hok, h2⟩
        have hw : t.players[t.current_turn]? = some p := okOr_ok_inv _ _ _ hok
        by_cases hlp : (!p.folded && !p.all_in) = true
        · rw [if_pos hlp] at h2
          have hinvset : ChipInv { t with
              players := t.players.set t.current_turn { p with folded := true } } := by
            refine ⟨hpot, ?_, hsb, hbb⟩
            intro q hq
            rcases List.mem_or_eq_of_mem_set hq with hq | rfl
            · exact hst q hq
            · exact hst p (mem_of_getElem' _ _ _ hw)
          have hcset : chip_total { t with
              players := t.players.set t.current_turn { p with folded := true } } =
              chip_total t := by
            unfold chip_total
            dsimp only
            rw [sum_map_set (·.stack) t.players t.current_turn _ p hw]
            dsimp only
            ring
          split at h2
          · obtain ⟨hcs, hinvs⟩ := settle_fold_win_chip cl _ t' h2 hinvset
            exact ⟨hcs.trans hcset, hinvs⟩
          · simp only [Except.ok.injEq] at h2
            subst h2
            exact ⟨hcset, hinvset⟩
        · rw [if_neg hlp] at h2
          cases h2
          exact ⟨rfl, hpot, hst, hsb, hbb⟩
    | DealingRiver =>
        rw [hph] at h
        dsimp only at h
        obtain ⟨hc, hi⟩ := emergency_refund_chip _ t' h ⟨hpot, hst, hsb, hbb⟩
        exact ⟨hc, hi⟩
    | River =>
        rw [hph] at h
        dsimp only at h
        rcases bind_ok_inv _ _ _ h with ⟨p, hok, h2⟩
        have hw : t.players[t.current_turn]? = some p := okOr_ok_inv _ _ _ hok
        by_cases hlp : (!p.folded && !p.all_in) = true
        · rw [if_pos hlp] at h2
          have hinvset : ChipInv { t with
              players := t.players.set t.current_turn { p with folded := true } } := by
            refine ⟨hpot, ?_, hsb, hbb⟩
            intro q hq
            rcases List.mem_or_eq_of_mem_set hq with hq | rfl
            · exact hst q hq
            · exact hst p (mem_of_getElem' _ _ _ hw)
          have hcset : chip_total { t with
              players := t.players.set t.current_turn { p with folded := true } } =
              chip_total t := by
            unfold chip_total
            dsimp only
            rw [sum_map_set (·.stack) t.players t.current_turn _ p hw]
            dsimp only
            ring
          split at h2
          · obtain ⟨hcs, hinvs⟩ := settle_fold_win_chip cl _ t' h2 hinvset
            exact ⟨hcs.trans hcset, hinvs⟩
          · simp only [Except.ok.injEq] at h2
            subst h2
            exact ⟨hcset, hinvset⟩
        · rw [if_neg hlp] at h2
          cases h2
          exact ⟨rfl, hpot, hst, hsb, hbb⟩
    | Showdown =>
        rw [hph] at h
        dsimp only at h
        obtain ⟨hc, hi⟩ := emergency_refund_chip _ t' h ⟨hpot, hst, hsb, hbb⟩
        exact ⟨hc, hi⟩
    | Settlement =>
        rw [hph] at h
        dsimp only at h
        cases h
    | Dispute =>
        rw [hph] at h
        dsimp only at h
        cases h


theorem allin_wrap_stack (q : PlayerState) :
    (if q.stack = 0 then ({ q with all_in := true } : PlayerState) else q).stack =
      q.stack := by
  by_cases h : q.stack = 0 <;> simp [h]

theorem process_action_chip (cl : Nat) (t t' : TableState) (player : Nat) (a : Action)
    (h : process_action cl t player a = .ok t') (hinv : ChipInv t) :
    chip_total t' = chip_total t ∧ ChipInv t' := by
  obtain ⟨hpot, hst, hsb, hbb⟩ := hinv
  unfold process_action at h
  rcases bind_ok_inv _ _ _ h with ⟨seat, hfs, h1⟩
  by_cases hseat : seat ≠ t.current_turn
  · rw [if_pos hseat] at h1
    cases h1
  · rw [if_neg hseat] at h1
    rcases bind_ok_inv _ _ _ h1 with ⟨p, hokp, h2⟩
    by_cases hpf : p.folded = true
    · rw [if_pos hpf] at h2
      cases h2
    · rw [if_neg hpf] at h2
      by_cases hpa : p.all_in = true
      · rw [if_pos hpa] at h2
        cases h2
      · rw [if_neg hpa] at h2
        rcases bind_ok_inv _ _ _ h2 with ⟨tp, hin, hcont⟩
        dsimp only at hcont
        have hw : t.players[seat]? = some p := okOr_ok_inv _ _ _ hokp
        have hmem := mem_of_getElem' _ _ _ hw
        have hps0 : 0 ≤ p.stack := hst p hmem
        have hkey : chip_total tp.1 = chip_total t ∧ ChipInv tp.1 := by
          cases a with
          | Fold =>
            dsimp only at hin
            have hinvset : ChipInv { t with
                players := t.players.set seat { p with folded := true } } := by
              refine ⟨hpot, ?_, hsb, hbb⟩
              intro q hq
              rcases List.mem_or_eq_of_mem_set hq with hq | rfl
              · exact hst q hq
              · exact hps0
            have hcset : chip_total { t with
                players := t.players.set seat { p with folded := true } } =
                chip_total t := by
              unfold chip_total
              dsimp only
              rw [sum_map_set (·.stack) t.players seat _ p hw]
              dsimp only
              ring
            split at hin
            · rcases bind_ok_inv _ _ _ hin with ⟨ts, hsw, hp2⟩
              simp only [Pure.pure, Except.pure, Except.ok.injEq] at hp2
              cases hp2
              obtain ⟨hcs, hinvs⟩ := settle_fold_win_chip cl _ ts hsw hinvset
              exact ⟨hcs.trans hcset, hinvs⟩
            · cases hin
              exact ⟨hcset, hinvset⟩
          | Check =>
            dsimp only at hin
            split at hin
            · cases hin
            · cases hin
              exact ⟨rfl, hpot, hst, hsb, hbb⟩
          | Call =>
            dsimp only at hin
            split at hin
            · cases hin
            · rename_i hg
              cases hin
              constructor
              · unfold chip_total
                dsimp only
                rw [sum_map_set (·.stack) t.players seat _ p hw]
                split <;> dsimp only <;> ring
              · refine ⟨?_, ?_, hsb, hbb⟩
                · dsimp only
                  omega
                · intro q hq
                  dsimp only at hq
                  rcases List.mem_or_eq_of_mem_set hq with hq | rfl
                  · exact hst q hq
                  · split <;> dsimp only <;> omega
          | Bet amount =>
            dsimp only at hin
            split at hin
            · cases hin
            · split at hin
              · cases hin
              · split at hin
                · cases hin
                · rename_i hg1 hg2 hg3
                  cases hin
                  constructor
                  · unfold chip_total
                    dsimp only
                    rw [sum_map_set (·.stack) t.players seat _ p hw]
                    split <;> dsimp only <;> ring
                  · refine ⟨?_, ?_, hsb, hbb⟩
                    · dsimp only
                      omega
                    · intro q hq
                      dsimp only at hq
                      rcases List.mem_or_eq_of_mem_set hq with hq | rfl
                      · exact hst q hq
                      · split <;> dsimp only <;> omega
          | Raise amount =>
            dsimp only at hin
            have hble := le_max_bet t p hmem
            split at hin
            · cases hin
            · split at hin
              · cases hin
              · rename_i hg1 hg2
                cases hin
                constructor
                · unfold chip_total
                  dsimp only
                  rw [sum_map_set (·.stack) t.players seat _ p hw]
                  split <;> dsimp only <;> ring
                · refine ⟨?_, ?_, hsb, hbb⟩
                  · dsimp only
                    omega
                  · intro q hq
                    dsimp only at hq
                    rcases List.mem_or_eq_of_mem_set hq with hq | rfl
                    · exact hst q hq
                    · split <;> dsimp only <;> omega
          | AllIn =>
            dsimp only at hin
            cases hin
            constructor
            · unfold chip_total
              dsimp only
              rw [sum_map_set (·.stack) t.players seat _ p hw]
              dsimp only
              ring
            · refine ⟨?_, ?_, hsb, hbb⟩
              · dsimp only
                omega
              · intro q hq
                dsimp only at hq
                rcases List.mem_or_eq_of_mem_set hq with hq | rfl
                · exact hst q hq
                · exact le_refl 0
        by_cases htp : tp.2 = true
        · rw [if_pos htp] at hcont
          injection hcont with hh
          subst hh
          exact hkey
        · rw [if_neg htp] at hcont
          obtain ⟨hca, hia⟩ := advance_turn_chip cl _ t' hcont hkey.2
          exact ⟨hca.trans hkey.1, hia⟩


theorem hand_step_chip (t t' : TableState) (hs : HandStep t t') (hinv : ChipInv t) :
    chip_total t' = chip_total t ∧ ChipInv t' := by
  cases hs with
  | startHand cl h =>
    unfold start_hand at h
    by_cases h1 : t.phase ≠ .Waiting ∧ t.phase ≠ .Settlement
    · rw [if_pos h1] at h
      cases h
    · rw [if_neg h1] at h
      by_cases h2 : t.players.length < 2
      · rw [if_pos h2] at h
        cases h
      · rw [if_neg h2] at h
        rcases bind_ok_inv _ _ _ h with ⟨ta, hsn, h3⟩
        rcases bind_ok_inv _ _ _ h3 with ⟨q1, hq1, h4⟩
        rcases bind_ok_inv _ _ _ h4 with ⟨q2, hq2, h5⟩
        simp only [Except.ok.injEq] at h5
        subst h5
        obtain ⟨hc, hi⟩ := start_new_hand_chip cl t ta hsn hinv
        exact ⟨hc, hi⟩
  | commitDeal cl caller dr hcm di vOk h =>
    unfold commit_deal at h
    by_cases g1 : t.phase ≠ .Dealing
    · rw [if_pos g1] at h
      cases h
    · rw [if_neg g1] at h
      by_cases g2 : caller ≠ t.committee
      · rw [if_pos g2] at h
        cases h
      · rw [if_neg g2] at h
        by_cases g3 : hcm.length ≠ t.players.length
        · rw [if_pos g3] at h
          cases h
        · rw [if_neg g3] at h
          by_cases g4 : (!vOk) = true
          · rw [if_pos g4] at h
            cases h
          · rw [if_neg g4] at h
            dsimp only at h
            by_cases g5 : t.players.length < 2
            · rw [if_pos g5] at h
              cases h
            · rw [if_neg g5] at h
              simp only [Except.ok.injEq] at h
              subst h
              obtain ⟨hpot, hst, hsb, hbb⟩ := hinv
              exact ⟨rfl, hpot, hst, hsb, hbb⟩
  | playerAction cl player a h =>
    unfold player_action at h
    by_cases g : t.phase ≠ .Preflop ∧ t.phase ≠ .Flop ∧ t.phase ≠ .Turn ∧ t.phase ≠ .River
    · rw [if_pos g] at h
      cases h
    · rw [if_neg g] at h
      exact process_action_chip cl t t' player a h hinv
  | revealBoard cl caller cards indices vOk h =>
    unfold reveal_board at h
    by_cases g1 : caller ≠ t.committee
    · rw [if_pos g1] at h
      cases h
    · rw [if_neg g1] at h
      rcases bind_ok_inv _ _ _ h with ⟨ec, hec, h2⟩
      by_cases g2 : cards.length ≠ ec ∨ indices.length ≠ ec
      · rw [if_pos g2] at h2
        cases h2
      · rw [if_neg g2] at h2
        by_cases g3 : (!vOk) = true
        · rw [if_pos g3] at h2
          cases h2
        · rw [if_neg g3] at h2
          dsimp only at h2
          rcases bind_ok_inv _ _ _ h2 with ⟨tb, htb, h3⟩
          have hkey : chip_total tb = chip_total t ∧ ChipInv tb := by
            obtain ⟨hpot, hst, hsb, hbb⟩ := hinv
            split at htb <;> cases htb <;> exact ⟨rfl, hpot, hst, hsb, hbb⟩
          obtain ⟨hcr, hir⟩ := reset_round_chip cl _ t' h3 hkey.2
          exact ⟨hcr.trans hkey.1, hir⟩
  | submitShowdown cl caller hole_cards vOk h =>
    unfold submit_showdown at h
    by_cases g1 : t.phase ≠ .Showdown
    · rw [if_pos g1] at h
      cases h
    · rw [if_neg g1] at h
      by_cases g2 : caller ≠ t.committee
      · rw [if_pos g2] at h
        cases h
      · rw [if_neg g2] at h
        by_cases g3 : (!vOk) = true
        · rw [if_pos g3] at h
          cases h
        · rw [if_neg g3] at h
          exact settle_showdown_chip cl t t' hole_cards h hinv
  | claimTimeout cl h =>
    exact process_timeout_chip cl t t' h hinv


/-- C1: chip conservation.  Along every legal sequence of successful
hand-lifecycle operations (`start_hand` with its blind posting,
`commit_deal`, `player_action` over every action variant, `reveal_board`,
`submit_showdown`, and `claim_timeout` including the emergency refund),
starting from a well-formed table (non-negative pot, stacks and blind
configuration), the sum of all players' stacks plus the pot is invariant,
and well-formedness is preserved: every betting branch moves exactly what it
takes from the acting player's stack into the pot, and every settlement moves
exactly the pot into the winner's (or refunded players') stacks before
zeroing it. -/
theorem chip_conservation (t t' : TableState) (hs : HandSteps t t')
    (hinv : ChipInv t) : chip_total t' = chip_total t ∧ ChipInv t' := by
  induction hs with
  | refl => exact ⟨rfl, hinv⟩
  | tail hab hbc ih =>
    obtain ⟨hc1, hi1⟩ := ih
    obtain ⟨hc2, hi2⟩ := hand_step_chip _ _ hbc hi1
    exact ⟨hc2.trans hc1, hi2⟩

/-- Witness for C1: the scenario hand (start at ledger 5, deal commit,
seat-0 fold) conserves the 1000 chips on the table. -/
theorem chip_conservation_witness :
    HandSteps exT2 exT5 ∧ ChipInv exT2 ∧
      (chip_total exT5 = chip_total exT2 ∧ ChipInv exT5) := by
  have s1 : HandStep exT2 exT3 := HandStep.startHand 5 (by decide)
  have s2 : HandStep exT3 exT4 :=
    HandStep.commitDeal 6 77 99 [11, 12] [0, 1] true (by decide)
  have s3 : HandStep exT4 exT5 := HandStep.playerAction 7 201 .Fold (by decide)
  have hs : HandSteps exT2 exT5 :=
    Relation.ReflTransGen.tail
      (Relation.ReflTransGen.tail
        (Relation.ReflTransGen.tail Relation.ReflTransGen.refl s1) s2) s3
  exact ⟨hs, by decide, chip_conservation exT2 exT5 hs (by decide)⟩

end PokerTable
